import Mathlib

/-!
Verification development for the EasyPAML batch CODEML driver.

The Python sources (`src/backend/codeml_backend.py`, `src/backend/sites_parser.py`)
are shallowly embedded below: pure text-processing functions become Lean functions
over `String`/`List Char`, Python `float` values become `ℚ` (all numeric literals
in the claims are exact decimals, and no claim depends on binary rounding),
Python `None`-able values become `Option`, Python dicts become insertion-ordered
association lists, and the external `codeml` process is a value of an explicit
outcome type.  `scipy.stats.chi2.cdf` is an external numerical routine and is
passed as an explicit function parameter wherever the source calls it.
-/

/- The Batteries rational-number primitives are `@[irreducible]`, which blocks
the kernel-level evaluation used by `decide` on the concrete inputs below;
restore their default reducibility. -/
attribute [local semireducible] Rat.add Rat.sub Rat.mul Rat.inv Rat.ofScientific

namespace EasyPAML

/-! ### Python-style character and string primitives -/

/-- ASCII lower-casing, modelling Python `str.lower()` on the ASCII inputs used here. -/
def asciiLowerChar (c : Char) : Char :=
  if 'A' ≤ c ∧ c ≤ 'Z' then Char.ofNat (c.toNat + 32) else c

def asciiLower (s : List Char) : List Char := s.map asciiLowerChar

/-- Python whitespace (`str.strip`, `str.split`, regex `\s`): space, tab, newline,
carriage return, form feed, vertical tab. -/
def pyIsSpace (c : Char) : Bool :=
  c = ' ' ∨ c = '\t' ∨ c = '\n' ∨ c = '\r' ∨ c = '\x0b' ∨ c = '\x0c'

def isDigitChar (c : Char) : Bool := '0' ≤ c ∧ c ≤ '9'

/-- Python regex word character `\w` restricted to ASCII: letters, digits, underscore. -/
def isWordChar (c : Char) : Bool :=
  isDigitChar c ∨ ('a' ≤ c ∧ c ≤ 'z') ∨ ('A' ≤ c ∧ c ≤ 'Z') ∨ c = '_'

def dropTrailingWhile (p : Char → Bool) (l : List Char) : List Char :=
  (l.reverse.dropWhile p).reverse

/-- Python `str.strip()`. -/
def pyStrip (l : List Char) : List Char :=
  dropTrailingWhile pyIsSpace (l.dropWhile pyIsSpace)

/-- Python `str.rstrip()`. -/
def pyRStrip (l : List Char) : List Char := dropTrailingWhile pyIsSpace l

/-- Python `str.split()` with no separator: split on whitespace runs, no empty parts. -/
def pyWords : List Char → List (List Char)
  | [] => []
  | c :: cs =>
    if pyIsSpace c then pyWords cs
    else
      match pyWords cs with
      | [] => [[c]]
      | w :: ws =>
        match cs with
        | [] => [[c]]
        | d :: _ => if pyIsSpace d then [c] :: w :: ws else (c :: w) :: ws

/-- Does `pat` occur at the start of `l`?  (Executable prefix test.) -/
def startsWith : List Char → List Char → Bool
  | [], _ => true
  | _ :: _, [] => false
  | p :: ps, c :: cs => p = c && startsWith ps cs

/-- Executable substring test, modelling Python `pat in s`. -/
def listContains (pat : List Char) : List Char → Bool
  | [] => startsWith pat []
  | c :: cs => startsWith pat (c :: cs) || listContains pat cs

/-- Specification-level substring predicate: `pat` occurs contiguously inside `l`. -/
def SubstrSpec (pat l : List Char) : Prop := ∃ a b, l = a ++ pat ++ b

theorem startsWith_iff (p l : List Char) :
    startsWith p l = true ↔ ∃ b, l = p ++ b := by
  induction p generalizing l with
  | nil => simp [startsWith]
  | cons c cs ih =>
    cases l with
    | nil => simp [startsWith]
    | cons d ds =>
      simp only [startsWith, Bool.and_eq_true, decide_eq_true_eq, ih]
      constructor
      · rintro ⟨rfl, b, rfl⟩; exact ⟨b, rfl⟩
      · rintro ⟨b, hb⟩
        injection hb with h1 h2
        exact ⟨h1.symm, b, h2⟩

theorem listContains_iff (pat l : List Char) :
    listContains pat l = true ↔ SubstrSpec pat l := by
  induction l with
  | nil =>
    simp only [listContains, startsWith_iff, SubstrSpec]
    constructor
    · rintro ⟨b, hb⟩; exact ⟨[], b, hb⟩
    · rintro ⟨a, b, hab⟩
      rcases a with _ | ⟨x, xs⟩
      · exact ⟨b, hab⟩
      · simp at hab
  | cons c cs ih =>
    simp only [listContains, Bool.or_eq_true, startsWith_iff, ih, SubstrSpec]
    constructor
    · rintro (⟨b, hb⟩ | ⟨a, b, hab⟩)
      · exact ⟨[], b, hb⟩
      · exact ⟨c :: a, b, by simp [hab]⟩
    · rintro ⟨a, b, hab⟩
      rcases a with _ | ⟨x, xs⟩
      · exact Or.inl ⟨b, hab⟩
      · injection hab with h1 h2
        exact Or.inr ⟨xs, b, h2⟩

instance (pat l : List Char) : Decidable (SubstrSpec pat l) :=
  decidable_of_iff (listContains pat l = true) (listContains_iff pat l)

/-- String-level substring containment, modelling Python `pat in s`. -/
def StrContains (pat s : String) : Prop := SubstrSpec pat.toList s.toList

instance (pat s : String) : Decidable (StrContains pat s) := by
  unfold StrContains; infer_instance

/-- Executable form of `StrContains`. -/
def strContainsB (pat s : String) : Bool := listContains pat.toList s.toList

theorem strContainsB_iff (pat s : String) :
    strContainsB pat s = true ↔ StrContains pat s := listContains_iff _ _

/-! ### Python numeric parsing and formatting (`float(...)`, `str(...)`, `f"{x:.6f}"`)

Values are modelled as `ℚ`; decimal-literal parsing is exact.  Python's binary64
rounding is immaterial to every claim settled here (all inputs are short decimal
literals and no theorem depends on sub-ulp behaviour). -/

def digitsToNat (ds : List Char) : Nat :=
  ds.foldl (fun acc c => acc * 10 + (c.toNat - '0'.toNat)) 0

/-- Model of Python `float(s)` on decimal forms `[+-]?digits[.digits][(e|E)[+-]digits]`
(surrounding whitespace stripped, as `float` does).  Non-finite forms (`inf`, `nan`)
and underscore-grouped literals are modelled as a parse failure; in every call site
below a non-finite value would be discarded by the `-10..100` sanity bound exactly as
a failed parse is, so the observable behaviour agrees. -/
def pyFloat? (s : String) : Option ℚ :=
  let cs := pyStrip s.toList
  let (sign, cs) :=
    match cs with
    | '+' :: rest => ((1 : ℚ), rest)
    | '-' :: rest => ((-1 : ℚ), rest)
    | _ => ((1 : ℚ), cs)
  let intDs := cs.takeWhile isDigitChar
  let cs1 := cs.dropWhile isDigitChar
  let (fracDs, cs2) :=
    match cs1 with
    | '.' :: rest => (rest.takeWhile isDigitChar, rest.dropWhile isDigitChar)
    | _ => ([], cs1)
  if intDs = [] ∧ fracDs = [] then none
  else
    let mant : ℚ := (digitsToNat intDs : ℚ) + (digitsToNat fracDs : ℚ) / (10 ^ fracDs.length : ℕ)
    match cs2 with
    | [] => some (sign * mant)
    | e :: rest =>
      if e = 'e' ∨ e = 'E' then
        let (esign, rest) :=
          match rest with
          | '+' :: r => ((1 : ℤ), r)
          | '-' :: r => ((-1 : ℤ), r)
          | _ => ((1 : ℤ), rest)
        let expDs := rest.takeWhile isDigitChar
        if expDs = [] ∨ rest.dropWhile isDigitChar ≠ [] then none
        else some (sign * mant * (10 : ℚ) ^ (esign * (digitsToNat expDs : ℤ)))
      else none

/-- Decimal digit string of a natural number (ordinary base-10 notation). -/
def natDigits (n : Nat) : String := toString n

/-- Round to the nearest integer, ties to even — the rounding used by Python's
fixed-point formatting. -/
def roundHalfEven (q : ℚ) : ℤ :=
  let f := q.floor
  let r := q - (f : ℚ)
  if r < 1/2 then f
  else if r > 1/2 then f + 1
  else if f % 2 = 0 then f else f + 1

/-- Model of Python `f"{x:.Nf}"` fixed-point formatting of a float, on `ℚ`. -/
def fixedFmt (prec : Nat) (q : ℚ) : String :=
  let m := roundHalfEven (q * (10 ^ prec : ℕ))
  let signStr := if m < 0 then "-" else ""
  let d := m.natAbs
  let ip := d / 10 ^ prec
  let fp := d % 10 ^ prec
  let fpStr := natDigits fp
  let pad := String.mk (List.replicate (prec - fpStr.length) '0')
  if prec = 0 then signStr ++ natDigits ip
  else signStr ++ natDigits ip ++ "." ++ pad ++ fpStr

/-- Model of Python `str(x)` for a float `x` whose value is a terminating decimal
(all floats written into the control-file template are such values): the shortest
fixed-point form, with `.0` appended to integral values (`str(1.0) = "1.0"`,
`str(0.5) = "0.5"`).  Non-terminating rationals cannot arise from the decimal
parsers above; for totality they fall back to `num/den` notation. -/
def pyFloatRepr (q : ℚ) : String :=
  let signStr := if q < 0 then "-" else ""
  let a : ℚ := if q < 0 then -q else q
  match (List.range 18).find? (fun k => ((a * (10 ^ k : ℕ)).den = 1)) with
  | some k =>
    let d := (a * (10 ^ k : ℕ)).num.natAbs
    if k = 0 then signStr ++ natDigits d ++ ".0"
    else
      let ip := d / 10 ^ k
      let fp := d % 10 ^ k
      let fpStr := natDigits fp
      let pad := String.mk (List.replicate (k - fpStr.length) '0')
      signStr ++ natDigits ip ++ "." ++ pad ++ fpStr
  | none => signStr ++ natDigits a.num.natAbs ++ "/" ++ natDigits a.den

/-- Python `l[-n:]`. -/
def takeLast (n : Nat) (l : List α) : List α := l.drop (l.length - n)

/-! ### Sorting and medians -/

/-- Stable insertion of `x` into `l`, placing `x` before the first element whose
key is not smaller; used to model Python's stable `sorted(..., key=...)`. -/
def insertKeyed (key : α → Nat) (x : α) : List α → List α
  | [] => [x]
  | y :: ys => if key x ≤ key y then x :: y :: ys else y :: insertKeyed key x ys

/-- Stable sort by a natural-number key (extensionally equal to any stable sort,
hence a faithful model of Python `sorted` with this key). -/
def sortByKey (key : α → Nat) (l : List α) : List α :=
  l.foldr (insertKeyed key) []

def insertQ (x : ℚ) : List ℚ → List ℚ
  | [] => [x]
  | y :: ys => if x ≤ y then x :: y :: ys else y :: insertQ x ys

def sortQ (l : List ℚ) : List ℚ := l.foldr insertQ []

/-- Model of `numpy.median` on a nonempty list: middle element of the sorted list,
or the mean of the two middle elements. -/
def medianQ (l : List ℚ) : ℚ :=
  let s := sortQ l
  if s.length % 2 = 1 then s.getD (s.length / 2) 0
  else (s.getD (s.length / 2 - 1) 0 + s.getD (s.length / 2) 0) / 2

/-! ### Regex-pattern matchers

Each Python regex used by the sources is embedded as a direct scanning function
with the same backtracking semantics, specialised to that pattern.  `re.search`
is modelled by trying the pattern matcher at every position left to right. -/

def digitDot (c : Char) : Bool := isDigitChar c ∨ c = '.'

def digitDotDash (c : Char) : Bool := isDigitChar c ∨ c = '.' ∨ c = '-'

/-- Character class `[\d.\s]`. -/
def digitDotSpace (c : Char) : Bool := digitDot c ∨ pyIsSpace c

/-- Drop a case-insensitive literal (given in lowercase) from the front. -/
def dropLitCI (lit : List Char) (cs : List Char) : Option (List Char) :=
  match lit, cs with
  | [], rest => some rest
  | _ :: _, [] => none
  | p :: ps, c :: rest => if asciiLowerChar c = p then dropLitCI ps rest else none

/-- Drop a case-sensitive literal from the front. -/
def dropLitCS (lit : List Char) (cs : List Char) : Option (List Char) :=
  match lit, cs with
  | [], rest => some rest
  | _ :: _, [] => none
  | p :: ps, c :: rest => if c = p then dropLitCS ps rest else none

/-- Regex `\s+` (greedy; every pattern below follows it with a non-whitespace
requirement or a group treated as in `lazyGroupEol`, so greediness is exact). -/
def dropWsPlus (cs : List Char) : Option (List Char) :=
  match cs with
  | c :: rest => if pyIsSpace c then some (rest.dropWhile pyIsSpace) else none
  | [] => none

/-- Lazy group `(C+?)` followed by `(?:\n|$)`: consume at least one `C`-character,
stopping at the first position where a newline or the end of input follows.
Matches Python's lazy-quantifier semantics for this tail exactly. -/
def lazyGroupEol (C : Char → Bool) : List Char → Option (List Char)
  | [] => none
  | c :: rest =>
    if ¬ C c then none
    else
      match rest with
      | [] => some [c]
      | d :: _ => if d = '\n' then some [c] else (lazyGroupEol C rest).map (c :: ·)

/-- Greedy group `(C+)` at the front: maximal nonempty run. -/
def greedyGroup (C : Char → Bool) (cs : List Char) : Option (List Char) :=
  let g := cs.takeWhile C
  if g = [] then none else some g

/-- `re.search`: try the position matcher at each start, leftmost match wins. -/
def searchAt (f : List Char → Option α) : List Char → Option α
  | [] => f []
  | c :: cs =>
    match f (c :: cs) with
    | some r => some r
    | none => searchAt f cs

/-- `re.search` for a pattern with a leading word boundary `\b`: additionally
track the previous character. -/
def searchWordBoundary (f : List Char → Option α) : Option Char → List Char → Option α
  | _, [] => none
  | prev, c :: cs =>
    match (if (match prev with | none => true | some p => ¬ isWordChar p) then f (c :: cs) else none) with
    | some r => some r
    | none => searchWordBoundary f (some c) cs

/-- Distinct elements in first-occurrence order (worker, skipping `seen`). -/
def firstDedupAux (seen : List String) : List String → List String
  | [] => []
  | x :: xs =>
    if x ∈ seen then firstDedupAux seen xs else x :: firstDedupAux (x :: seen) xs

/-- Distinct elements in first-occurrence order.  Deterministic stand-in for
Python's set/dict iteration order; every theorem below is insensitive to the
relative order of hash-set elements (see the sort-stability discussion at
`autoCompleteNullModels`). -/
def firstDedup (l : List String) : List String := firstDedupAux [] l

namespace SitesParser

/-- Pattern `background\s+w\s+([\d.\s]+?)(?:\n|$)` (and the `foreground` twin),
case-sensitive, from `extract_omega_by_tags`.  The greedy `\s+` before the group
never changes the observable outcome: a backtrack handing whitespace to the group
can only produce an all-whitespace capture, which every caller discards the same
way as a failed match. -/
def tryTagLine (label : List Char) (cs : List Char) : Option String :=
  (dropLitCS label cs).bind fun a =>
  (dropWsPlus a).bind fun b =>
  (dropLitCS ['w'] b).bind fun c =>
  (dropWsPlus c).bind fun d =>
  (lazyGroupEol digitDotSpace d).map fun g => String.mk g

/-- Pattern `w\s*\(dN/dS\)\s*for\s+branches?\s*:\s*([\d.\s]+?)(?:\n|$)`,
case-insensitive, from `extract_omega_by_tags`. -/
def tryMulti (cs : List Char) : Option String :=
  (dropLitCI "w".toList cs).bind fun a =>
  (dropLitCI "(dn/ds)".toList (a.dropWhile pyIsSpace)).bind fun b =>
  (dropLitCI "for".toList (b.dropWhile pyIsSpace)).bind fun c =>
  (dropWsPlus c).bind fun d =>
  (dropLitCI "branche".toList d).bind fun e =>
  let e1 := match e with
    | x :: r => if asciiLowerChar x = 's' then r else e
    | [] => e
  (dropLitCS [':'] (e1.dropWhile pyIsSpace)).bind fun f =>
  (lazyGroupEol digitDotSpace (f.dropWhile pyIsSpace)).map fun g => String.mk g

/-- Pattern `omega \(w\) for branches:\s*([\d.]+)`, case-insensitive. -/
def tryParamA (cs : List Char) : Option String :=
  (dropLitCI "omega (w) for branches:".toList cs).bind fun a =>
  (greedyGroup digitDot (a.dropWhile pyIsSpace)).map fun g => String.mk g

/-- Pattern `w\s*=\s*([\d.]+)`, case-insensitive. -/
def tryParamB (cs : List Char) : Option String :=
  (dropLitCI "w".toList cs).bind fun a =>
  (dropLitCS ['='] (a.dropWhile pyIsSpace)).bind fun b =>
  (greedyGroup digitDot (b.dropWhile pyIsSpace)).map fun g => String.mk g

/-- Tail of pattern `dN/dS.*?=\s*([\d.]+)` after the literal: lazy scan (the dot
never crosses a newline) to an `=` whose suffix completes the pattern. -/
def lazyFindEq : List Char → Option String
  | [] => none
  | c :: rest =>
    match (if c = '='
           then (greedyGroup digitDot (rest.dropWhile pyIsSpace)).map fun g => String.mk g
           else none) with
    | some r => some r
    | none => if c = '\n' then none else lazyFindEq rest

/-- Pattern `dN/dS.*?=\s*([\d.]+)`, case-insensitive. -/
def tryParamC (cs : List Char) : Option String :=
  (dropLitCI "dn/ds".toList cs).bind lazyFindEq

/-- Pattern `w \(dN/dS\)\s*=\s*([\d.]+)`, case-insensitive. -/
def tryParamD (cs : List Char) : Option String :=
  (dropLitCI "w (dn/ds)".toList cs).bind fun a =>
  (dropLitCS ['='] (a.dropWhile pyIsSpace)).bind fun b =>
  (greedyGroup digitDot (b.dropWhile pyIsSpace)).map fun g => String.mk g

/-- Pattern `\bw\s+=\s*([\d.]+)` minus its leading word boundary (handled by
`searchWordBoundary`), case-insensitive. -/
def tryParamE (cs : List Char) : Option String :=
  (dropLitCI "w".toList cs).bind fun a =>
  (dropWsPlus a).bind fun b =>
  (dropLitCS ['='] b).bind fun c =>
  (greedyGroup digitDot (c.dropWhile pyIsSpace)).map fun g => String.mk g

/-- Sanity bound `-10 <= omega <= 100` used throughout the parsers. -/
def inBounds (v : ℚ) : Bool := -10 ≤ v ∧ v ≤ 100

def splitLinesAux : List Char → List Char → List String
  | acc, [] => [String.mk acc.reverse]
  | acc, c :: cs =>
    if c = '\n' then String.mk acc.reverse :: splitLinesAux [] cs
    else splitLinesAux (c :: acc) cs

/-- Python `content.split('\n')` (file contents are read whole, then split). -/
def splitLines (s : String) : List String := splitLinesAux [] s.toList

/-- The table header searched for by the global and per-branch extractors. -/
def branchTableMarker : String := "dN & dS for each branch"

/-- Lines strictly after the first line containing `marker`, or `none`. -/
def linesAfterMarker (marker : String) : List String → Option (List String)
  | [] => none
  | l :: rest =>
    if listContains marker.toList l.toList then some rest
    else linesAfterMarker marker rest

/-- End-of-table markers of `extract_omega_global` (lines 128).  They are tested
against the lower-cased line, so the two mixed-case entries can never fire; they
are kept verbatim from the source. -/
def endMarkersGlobal : List String := ["tree length", "mlc", "model", "---", "dS tree", "dN tree"]

/-- End-of-table markers of `extract_omega_by_branches` (line 188). -/
def endMarkersBranches : List String := ["tree length", "dS tree", "dN tree", "---"]

def lineHitsMarker (markers : List String) (dl : List Char) : Bool :=
  markers.any fun x => listContains x.toList (asciiLower dl)

/-- The 5th whitespace-separated field of a stripped line, parsed as a float
(`parts = data_line.split(); parts[4]` guarded by `len(parts) >= 5`). -/
def fifthField (dl : List Char) : Option ℚ :=
  let parts := pyWords dl
  if parts.length ≥ 5 then pyFloat? (String.mk (parts.getD 4 [])) else none

/-- The scanning loop of `extract_omega_global` (lines 117-146): at most 199 lines
after the header line, skipping blank lines and lines containing `branch`,
stopping at an end marker, collecting in-bounds 5th-field values. -/
def scanOmegas : Nat → List String → List ℚ
  | 0, _ => []
  | _, [] => []
  | fuel+1, l :: rest =>
    let dl := pyStrip l.toList
    if dl = [] ∨ listContains "branch".toList (asciiLower dl) then scanOmegas fuel rest
    else if lineHitsMarker endMarkersGlobal dl then []
    else
      match fifthField dl with
      | some w => if inBounds w then w :: scanOmegas fuel rest else scanOmegas fuel rest
      | none => scanOmegas fuel rest

/-- `SitesParser.extract_omega_global` (lines 101-155), on the file's text. -/
def extractOmegaGlobal (content : String) : Option ℚ :=
  if ¬ strContainsB branchTableMarker content then none
  else
    match linesAfterMarker branchTableMarker (splitLines content) with
    | none => none
    | some rest =>
      let omegas := scanOmegas 199 rest
      if omegas = [] then none else some (medianQ omegas)

/-- Python-dict assignment `d[k] = v`: overwrite in place, else append. -/
def updateAssoc (k : String) (v : ℚ) : List (String × ℚ) → List (String × ℚ)
  | [] => [(k, v)]
  | (k', v') :: rest => if k' = k then (k, v) :: rest else (k', v') :: updateAssoc k v rest

/-- The scanning loop of `extract_omega_by_branches` (lines 178-202). -/
def scanBranchPairs : Nat → List String → List (String × ℚ) → List (String × ℚ)
  | 0, _, acc => acc
  | _, [], acc => acc
  | fuel+1, l :: rest, acc =>
    let dl := pyStrip l.toList
    if dl = [] ∨ listContains "branch".toList (asciiLower dl) then scanBranchPairs fuel rest acc
    else if lineHitsMarker endMarkersBranches dl then acc
    else
      let parts := pyWords dl
      if parts.length ≥ 5 then
        match pyFloat? (String.mk (parts.getD 4 [])) with
        | some w =>
          if inBounds w then scanBranchPairs fuel rest (updateAssoc (String.mk (parts.getD 0 [])) w acc)
          else scanBranchPairs fuel rest acc
        | none => scanBranchPairs fuel rest acc
      else scanBranchPairs fuel rest acc

/-- `SitesParser.extract_omega_by_branches` (lines 158-206). -/
def extractOmegaByBranches (content : String) : List (String × ℚ) :=
  if ¬ strContainsB branchTableMarker content then []
  else
    match linesAfterMarker branchTableMarker (splitLines content) with
    | none => []
    | some rest => scanBranchPairs 199 rest []

/-- `SitesParser.extract_omega_values_from_model_params` (lines 209-237): the five
labelled-ratio patterns in order; a matched group that fails to parse raises
`ValueError`, caught by the function's `except`, i.e. the whole call returns the
absent value; a matched in-bounds value returns; an out-of-bounds match falls
through to the next pattern. -/
def extractOmegaModelParams (content : String) : Option ℚ :=
  let cs := content.toList
  let step : Option String → (Unit → Option ℚ) → Option ℚ := fun res next =>
    match res with
    | some g =>
      match pyFloat? g with
      | none => none
      | some v => if -10 ≤ v ∧ v ≤ 100 then some v else next ()
    | none => next ()
  step (searchAt tryParamA cs) fun _ =>
  step (searchAt tryParamB cs) fun _ =>
  step (searchAt tryParamC cs) fun _ =>
  step (searchAt tryParamD cs) fun _ =>
  step (searchWordBoundary tryParamE none cs) fun _ => none

/-- `SitesParser.extract_omega_robust` (lines 240-273): texts bearing the
branch-site signature (`site class` with `background w` and `foreground w`)
yield the absent value before any strategy runs; otherwise the branch table,
then the model-parameter patterns. -/
def extractOmegaRobust (content : String) : Option ℚ :=
  if strContainsB "site class" content ∧ strContainsB "background w" content ∧
      strContainsB "foreground w" content then none
  else
    match extractOmegaGlobal content with
    | some w => some w
    | none => extractOmegaModelParams content

/-- The explicit background/foreground branch of `extract_omega_by_tags`
(lines 296-324): last whitespace token of each captured group, parsed and
bounds-filtered; any failure leaves the accumulator empty, falling through. -/
def bgfgPairs (content : String) : List (String × ℚ) :=
  let cs := content.toList
  match searchAt (tryTagLine "background".toList) cs,
        searchAt (tryTagLine "foreground".toList) cs with
  | some g1, some g2 =>
    let bv := pyWords (pyStrip g1.toList)
    let fv := pyWords (pyStrip g2.toList)
    if bv ≠ [] ∧ fv ≠ [] then
      match pyFloat? (String.mk (bv.getLastD [])), pyFloat? (String.mk (fv.getLastD [])) with
      | some b, some f =>
        (if inBounds b then [("background", b)] else []) ++
        (if inBounds f then [("foreground", f)] else [])
      | _, _ => []
    else []
  | _, _ => []

/-- Numbered tags `#1, #2, ...` for the values after the background value. -/
def tagNumbered : Nat → List ℚ → List (String × ℚ)
  | _, [] => []
  | i, v :: r => ("#" ++ toString i, v) :: tagNumbered (i+1) r

/-- The table fallback of `extract_omega_by_tags` (lines 359-388): group branch
ratios by their 6-decimal rendering, sort the distinct values ascending, call the
smallest `background` and number the rest. -/
def fallbackTags (content : String) : List (String × ℚ) :=
  let bd := extractOmegaByBranches content
  if bd = [] then []
  else
    let keys := firstDedup (bd.map fun p => fixedFmt 6 p.2)
    let vals := sortQ (keys.map fun k => (pyFloat? k).getD 0)
    match vals with
    | [] => []
    | [v] => [("background", v)]
    | v :: w :: rest => ("background", v) :: tagNumbered 1 (w :: rest)

/-- Token filter of the multi-value branch (lines 334-342): keep values in the
sanity bound or exactly the `999` placeholder, drop unparseable tokens. -/
def multiValues (grp : String) : List ℚ :=
  (pyWords (pyStrip grp.toList)).filterMap fun t =>
    match pyFloat? (String.mk t) with
    | some v => if inBounds v ∨ v = 999 then some v else none
    | none => none

/-- `SitesParser.extract_omega_by_tags` (lines 276-394). -/
def extractOmegaByTags (content : String) : List (String × ℚ) :=
  let bf := bgfgPairs content
  if bf ≠ [] then bf
  else
    match searchAt tryMulti content.toList with
    | some grp =>
      match multiValues grp with
      | v :: w :: rest => ("background", v) :: tagNumbered 1 (w :: rest)
      | [v] => [("background", v)]
      | [] => fallbackTags content
    | none => fallbackTags content

end SitesParser

namespace Codeml

/-! ### Model catalogs (`CodemlBatchAnalysis` class constants) -/

/-- `NULL_MODEL_PAIRS` (lines 175-180): alternative model ↦ its null model. -/
def NULL_MODEL_PAIRS : List (String × String) :=
  [("M2a", "M1a"), ("M8", "M7"), ("Branch", "M0"), ("Branch-site", "Branch-site_null")]

/-- Dictionary lookup `NULL_MODEL_PAIRS[m]` as used at lines 231-232, written as
the equivalent decision chain over the four fixed keys. -/
def lookupNull (m : String) : Option String :=
  if m = "M2a" then some "M1a"
  else if m = "M8" then some "M7"
  else if m = "Branch" then some "M0"
  else if m = "Branch-site" then some "Branch-site_null"
  else none

/-- The value set of `NULL_MODEL_PAIRS` together with the two neutral names the
expansion can add; every element the expansion appends lies in this list. -/
def nullVals : List String := ["M1a", "M7", "M0", "Branch-site_null"]

/-- The key set of `NEUTRAL_MODELS` (lines 184-203); only membership is consulted
by `generate_ctl_content`.  Note the catalog still carries the historical name
`BranchSite_A_null`, not the renamed `Branch-site_null`. -/
def NEUTRAL_MODELS : List String := ["M0", "M1a", "BranchSite_A_null"]

/-- The four integer knobs and initial ratio of one entry of `MODEL_CONFIGS`
(after any per-model override has been merged on top). -/
structure ModelConfig where
  model : Int
  NSsites : Int
  CodonFreq : Int
  fix_omega : Int
  omega : ℚ

/-- The `MODEL_CONFIGS` default entry for a model name (lines 24-90), restricted
to the keys `generate_ctl_content` reads plus the initial ratio. -/
def MODEL_CONFIGS (name : String) : Option ModelConfig :=
  if name = "M0" then some ⟨0, 0, 2, 0, 1/2⟩
  else if name = "M1a" then some ⟨0, 1, 2, 0, 1/2⟩
  else if name = "M2a" then some ⟨0, 2, 2, 0, 1/2⟩
  else if name = "M7" then some ⟨0, 7, 2, 0, 1/2⟩
  else if name = "M8" then some ⟨0, 8, 2, 0, 1/2⟩
  else if name = "Branch" then some ⟨2, 0, 2, 0, 1/2⟩
  else if name = "Branch-site" then some ⟨2, 2, 7, 0, 1/2⟩
  else if name = "Branch-site_null" then some ⟨2, 2, 7, 1, 1⟩
  else none

/-- `CodemlBatchAnalysis.generate_ctl_content` (lines 248-292).  The template is
transcribed byte-for-byte from the source f-string (including its tab characters);
the neutral-model branch forces `fix_omega = 1` and ratio `1.0` only when
`model_name` is a key of `NEUTRAL_MODELS`. -/
def generateCtlContent (seqfile treefile outfile : String) (mc : ModelConfig)
    (omega : ℚ) (cleandata : Int) (model_name : String) : String :=
  let fo : Int := if model_name ∈ NEUTRAL_MODELS then 1 else mc.fix_omega
  let finalOmega : ℚ := if model_name ∈ NEUTRAL_MODELS then 1 else omega
  "      seqfile = " ++ seqfile ++ "\n" ++
  "     treefile = " ++ treefile ++ "\n" ++
  "      outfile = " ++ outfile ++ "\n" ++
  "   \n" ++
  "        noisy = 3              * How much rubbish on the screen\n" ++
  "      verbose = 1              * More or less detailed report\n" ++
  "      seqtype = 1              * Data type\n" ++
  "        ndata = 1              * Number of data sets or loci\n" ++
  "        icode = 0              * Genetic code \n" ++
  "    cleandata = " ++ toString cleandata ++ "              * Remove sites with ambiguity data?\n" ++
  "\t\t\n" ++
  "        model = " ++ toString mc.model ++ "         * Models for ω varying across lineages\n" ++
  "\t  NSsites = " ++ toString mc.NSsites ++ "          * Models for ω varying across sites\n" ++
  "    CodonFreq = " ++ toString mc.CodonFreq ++ "        * Codon frequencies\n" ++
  "\t  estFreq = 0              * Use observed freqs or estimate freqs by ML\n" ++
  "        clock = 0              * Clock model\n" ++
  "    fix_omega = " ++ toString fo ++ "         * Estimate or fix omega\n" ++
  "        omega = " ++ pyFloatRepr finalOmega ++ "        * Initial or fixed omega\n"

/-! ### Interactive-prompt detection (`read_stream`, lines 717-760) -/

/-- Line classification of `read_stream` (lines 726-730): the lower-cased line
contains both `stop` and `codon`, or both `press` and `enter`.  The reader applies
this to `line.rstrip()`; stripping trailing whitespace cannot change containment
of these letter-only substrings. -/
def detectPrompt (line : String) : Bool :=
  let lower := asciiLower line.toList
  (listContains "stop".toList lower ∧ listContains "codon".toList lower) ∨
  (listContains "press".toList lower ∧ listContains "enter".toList lower)

/-! ### Per-file numeric extraction (`_extract_likelihood`, `_extract_np`) -/

/-- Group `([+-]?\d+\.\d+)` at the front of the input. -/
def trySignedNum (cs : List Char) : Option String :=
  let (sign, cs1) :=
    match cs with
    | '+' :: r => (['+'], r)
    | '-' :: r => (['-'], r)
    | _ => (([] : List Char), cs)
  (greedyGroup isDigitChar cs1).bind fun d1 =>
  match cs1.dropWhile isDigitChar with
  | '.' :: cs3 => (greedyGroup isDigitChar cs3).map fun d2 => String.mk (sign ++ d1 ++ '.' :: d2)
  | _ => none

/-- Pattern `lnL[^:]*:\s*([+-]?\d+\.\d+)` (case-sensitive). -/
def tryLnLA (cs : List Char) : Option String :=
  (dropLitCS "lnL".toList cs).bind fun a =>
  match a.dropWhile (fun c => ¬ c = ':') with
  | ':' :: c => trySignedNum (c.dropWhile pyIsSpace)
  | _ => none

/-- Pattern `lnL\([^)]*\):\s*([+-]?\d+\.\d+)`. -/
def tryLnLB (cs : List Char) : Option String :=
  (dropLitCS "lnL(".toList cs).bind fun a =>
  match a.dropWhile (fun c => ¬ c = ')') with
  | ')' :: ':' :: c => trySignedNum (c.dropWhile pyIsSpace)
  | _ => none

/-- Pattern `lnL\s*[:=]\s*([+-]?\d+\.\d+)`. -/
def tryLnLC (cs : List Char) : Option String :=
  (dropLitCS "lnL".toList cs).bind fun a =>
  match a.dropWhile pyIsSpace with
  | c :: rest => if c = ':' ∨ c = '=' then trySignedNum (rest.dropWhile pyIsSpace) else none
  | [] => none

/-- `CodemlBatchAnalysis._extract_likelihood` (lines 964-985): first line
containing `lnL` on which one of the three patterns (tried in order) matches;
a captured group here always parses, and an unmatched line falls through to the
following lines exactly as in the source loop. -/
def extractLikelihoodLines : List String → Option ℚ
  | [] => none
  | l :: rest =>
    if listContains "lnL".toList l.toList then
      let step : Option String → (Unit → Option ℚ) → Option ℚ := fun res next =>
        match res with
        | some g => match pyFloat? g with
                    | some v => some v
                    | none => next ()
        | none => next ()
      step (searchAt tryLnLA l.toList) fun _ =>
      step (searchAt tryLnLB l.toList) fun _ =>
      step (searchAt tryLnLC l.toList) fun _ =>
      extractLikelihoodLines rest
    else extractLikelihoodLines rest

def extractLikelihood (content : String) : Option ℚ :=
  extractLikelihoodLines (SitesParser.splitLines content)

/-- Pattern `np:\s*(\d+)`. -/
def tryNp (cs : List Char) : Option ℤ :=
  (dropLitCS "np:".toList cs).bind fun a =>
  (greedyGroup isDigitChar (a.dropWhile pyIsSpace)).map fun d => (digitsToNat d : ℤ)

/-- `CodemlBatchAnalysis._extract_np` (lines 987-998). -/
def extractNpLines : List String → Option ℤ
  | [] => none
  | l :: rest =>
    if listContains "lnL".toList l.toList ∧ listContains "np:".toList l.toList then
      match searchAt tryNp l.toList with
      | some n => some n
      | none => extractNpLines rest
    else extractNpLines rest

def extractNp (content : String) : Option ℤ :=
  extractNpLines (SitesParser.splitLines content)

/-! ### Null-model auto-completion (`auto_complete_null_models`, lines 212-245) -/

/-- The sort key of line 245: `selected_models.index(x) if x in selected_models
else 999`. -/
def autoKey (selected : List String) (x : String) : Nat :=
  if x ∈ selected then selected.indexOf x else 999

/-- The pairs loop (lines 230-233): add each selected model's null counterpart to
the set.  The set is modelled as an insertion-ordered duplicate-free list. -/
def addNulls (acc : List String) : List String → List String
  | [] => acc
  | m :: ms =>
    match lookupNull m with
    | some nm => addNulls (if nm ∈ acc then acc else acc ++ [nm]) ms
    | none => addNulls acc ms

/-- The neutral-model section (lines 237-243). -/
def addNeutrals (selected acc : List String) (includeNeutral : Bool) : List String :=
  if includeNeutral then
    let acc1 := if "M2a" ∈ selected ∧ ¬ "M1a" ∈ acc then acc ++ ["M1a"] else acc
    if "Branch-site" ∈ selected ∧ ¬ "Branch-site_null" ∈ acc1 then acc1 ++ ["Branch-site_null"]
    else acc1
  else acc

/-- The completed model set (lines 228-243) before the final sort, in insertion
order: first occurrences of the selection, then appended nulls and neutrals. -/
def completedList (selected : List String) (includeNeutral : Bool) : List String :=
  addNeutrals selected (addNulls (firstDedup selected) selected) includeNeutral

/-- `CodemlBatchAnalysis.auto_complete_null_models` (lines 212-245): build the
completed set, then `sorted(..., key=...)` with the key above.  Python's `sorted`
is stable and the relative order of the hash set's elements only affects ties,
i.e. elements sharing the sentinel key 999; no theorem below constrains the
relative order of those. -/
def autoCompleteNullModels (selected : List String) (includeNeutral : Bool) : List String :=
  sortByKey (autoKey selected) (completedList selected includeNeutral)

/-! ### One run and the batch loop (`_run_single_analysis`, `run_batch_analysis`) -/

/-- Observable behaviour of one external `codeml` process: it either exceeds the
wall-clock timeout, or terminates with an exit code, the lines it wrote to each
standard stream, the main output file's text when one was produced, and the
elapsed time.  Stream draining, stdin injection and file shuffling are the
I/O around this value in the source. -/
inductive ProcExec where
  | timedOut (stdoutLines stderrLines : List String)
  | completed (rc : Int) (stdoutLines stderrLines : List String)
      (outputContent : Option String) (elapsed : ℚ)

/-- The per-run result dict built at lines 926-935. -/
structure RunResult where
  outputContent : Option String
  lnL : Option ℚ
  np : Option ℤ
  omega : Option ℚ
  execTime : ℚ
  status : String
  stopCount : ℕ
  deriving DecidableEq

/-- `CodemlBatchAnalysis._run_single_analysis` (lines 533-962), as a function of
the process outcome: a timeout logs the tail of both streams and yields no result
(the Python function returns `None`, lines 831-848); a terminated process always
yields a result, with status `success` exactly when the exit code is zero and the
output file exists, else `partial` (line 933); extraction runs only when the
output file exists.  The second component is the text appended to the batch log. -/
def runSingleAnalysis : ProcExec → Option RunResult × List String
  | .timedOut so se =>
    (none, "TIMEOUT" :: (takeLast 200 so ++ takeLast 200 se))
  | .completed rc so se out t =>
    let r : RunResult :=
      { outputContent := out
        lnL := out.bind extractLikelihood
        np := out.bind extractNp
        omega := out.bind SitesParser.extractOmegaRobust
        execTime := t
        status := if rc = 0 ∧ out.isSome then "success" else "partial"
        stopCount := (so ++ se).countP fun l => detectPrompt (String.mk (pyRStrip l.toList)) }
    (some r, [])

/-- The gene × model loop of `run_batch_analysis` (lines 454-507): results are
recorded per gene under the model name only when `_run_single_analysis` returned
one; a failed or timed-out run leaves no entry and the loop continues. -/
def runBatchAnalysis (genes models : List String)
    (exec : String → String → ProcExec) :
    List (String × List (String × RunResult)) :=
  genes.map fun g =>
    (g, models.filterMap fun m => ((runSingleAnalysis (exec g m)).1).map fun r => (m, r))

/-! ### Summary table (`_save_summary`, lines 1009-1105) -/

def lookupA (k : String) (l : List (String × α)) : Option α :=
  (l.find? fun p => p.1 = k).map (·.2)

/-- The five metric cells of one (gene, model) pair when a run result is present
(lines 1044-1066): the lnL cell is formatted only when the value is truthy
(`if result.get('lnL')`), so both a missing and an exactly-zero lnL print `NA`;
`str(None)` for a missing parameter count prints `None`; the omega cell is
re-extracted from the output file when absent and is formatted whenever the value
is not `None` (an `is not None` test, not truthiness). -/
def cellBlockPresent (r : RunResult) : List String :=
  let omegaVal :=
    match r.omega with
    | some v => some v
    | none => r.outputContent.bind SitesParser.extractOmegaRobust
  [ (match r.lnL with
     | some q => if ¬ q = 0 then fixedFmt 6 q else "NA"
     | none => "NA"),
    (match r.np with
     | some n => toString n
     | none => "None"),
    (match omegaVal with
     | some v => fixedFmt 6 v
     | none => "NA"),
    fixedFmt 2 r.execTime,
    toString r.stopCount ]

/-- The cells written for a (gene, model) pair with no recorded run (line 1068):
four `NA` sentinels and a literal `0` stop count. -/
def cellBlock (r : Option RunResult) : List String :=
  match r with
  | some res => cellBlockPresent res
  | none => ["NA", "NA", "NA", "NA", "0"]

/-- The LRT comparisons whose columns the summary carries, in the order of
lines 1021-1035 / 1072-1086, including the old-name/new-name branch-site logic. -/
def liveComparisons (selected : List String) : List (String × String × String) :=
  (if "M0" ∈ selected ∧ "M1a" ∈ selected then [("M0", "M1a", "lrt_M0_vs_M1a")] else []) ++
  (if "M1a" ∈ selected ∧ "M2a" ∈ selected then [("M1a", "M2a", "lrt_M1a_vs_M2a")] else []) ++
  (if "M7" ∈ selected ∧ "M8" ∈ selected then [("M7", "M8", "lrt_M7_vs_M8")] else []) ++
  (if "M0" ∈ selected ∧ "Branch" ∈ selected then [("M0", "Branch", "lrt_M0_vs_Branch")] else []) ++
  (if ("BranchSite_A_null" ∈ selected ∧ "BranchSite_A" ∈ selected) ∨
      ("Branch-site_null" ∈ selected ∧ "Branch-site" ∈ selected) then
    (if "Branch-site_null" ∈ selected ∧ "Branch-site" ∈ selected then
      [("Branch-site_null", "Branch-site", "lrt_Branch-site_null_vs_Branch-site")]
    else
      [("BranchSite_A_null", "BranchSite_A", "lrt_BranchSite_A_null_vs_BranchSite_A")])
  else [])

/-- One per-gene LRT cell of the summary (lines 1088-1099): present results with
both lnL values not `None` give `2*(alt-null)` formatted, else `NA`. -/
def lrtCell (geneResults : List (String × RunResult)) (c : String × String × String) : String :=
  match lookupA c.1 geneResults, lookupA c.2.1 geneResults with
  | some nr, some ar =>
    match nr.lnL, ar.lnL with
    | some ln, some la => fixedFmt 6 (2 * (la - ln))
    | _, _ => "NA"
  | _, _ => "NA"

/-- The header row of `analysis_summary.tsv` (lines 1015-1035). -/
def summaryHeader (models : List String) : List String :=
  "Gene" :: (models.flatMap fun m =>
    [m ++ "_lnL", m ++ "_np", m ++ "_omega", m ++ "_time", m ++ "_stops"]) ++
  (liveComparisons models).map (·.2.2)

/-- One data row of the summary for a gene (lines 1040-1103). -/
def summaryRow (models : List String) (gene : String)
    (geneResults : List (String × RunResult)) : List String :=
  gene :: (models.flatMap fun m => cellBlock (lookupA m geneResults)) ++
  (liveComparisons models).map (lrtCell geneResults)

/-- Lexicographic code-point order on character lists. -/
def charListLt : List Char → List Char → Bool
  | [], [] => false
  | [], _ :: _ => true
  | _ :: _, [] => false
  | a :: as, b :: bs =>
    if a.toNat < b.toNat then true else if a = b then charListLt as bs else false

/-- Python string comparison (lexicographic by code point) as used by `sorted`. -/
def strLeB (a b : String) : Bool :=
  charListLt a.toList b.toList ∨ a = b

def insertByName (x : String × α) : List (String × α) → List (String × α)
  | [] => [x]
  | y :: ys => if strLeB x.1 y.1 then x :: y :: ys else y :: insertByName x ys

def sortByName (l : List (String × α)) : List (String × α) :=
  l.foldr insertByName []

/-- The data rows of `_save_summary`: one row per gene of the results mapping,
in sorted gene order, each with a cell block for every selected model. -/
def summaryRows (models : List String)
    (results : List (String × List (String × RunResult))) : List (List String) :=
  (sortByName results).map fun p => summaryRow models p.1 p.2

/-! ### Live LRT analysis (`_run_lrt_analysis`, lines 1107-1224) -/

/-- One row of the live LRT report. -/
structure LRTRow where
  stat : ℚ
  df : ℕ
  pval : ℚ
  deriving Repr, DecidableEq

/-- The per-gene body of `_run_lrt_analysis` (lines 1163-1198), for one
comparison: skip genes lacking either result or either lnL; with both present
compute `2*(alt-null)` and `df = |np_alt - np_null|`; exclude (skip, `continue`)
when `df = 0` or the statistic is negative; otherwise a row with
`p = 1 - chi2.cdf(stat, df)`.  Reading `np` of `None` would raise `TypeError`
in the source (`abs(None - None)`), modelled as the `.error` arm.  `chi2cdf`
stands for `scipy.stats.chi2.cdf`. -/
def liveGeneLRT (chi2cdf : ℚ → ℕ → ℚ) (nullRes altRes : Option RunResult) :
    Except Unit (Option LRTRow) :=
  match nullRes, altRes with
  | some nr, some ar =>
    match nr.lnL, ar.lnL with
    | some ln, some la =>
      match nr.np, ar.np with
      | some npn, some npa =>
        let stat := 2 * (la - ln)
        let df := (npa - npn).natAbs
        if df = 0 ∨ stat < 0 then .ok none
        else .ok (some ⟨stat, df, 1 - chi2cdf stat df⟩)
      | _, _ => .error ()
    | _, _ => .ok none
  | _, _ => .ok none

/-- The aggregate counters of one comparison (lines 1155-1198): how many genes
produced a valid row, and how many were significant at 0.05 and at 0.01. -/
def liveLRTcounts (chi2cdf : ℚ → ℕ → ℚ)
    (genes : List (Option RunResult × Option RunResult)) :
    Except Unit (ℕ × ℕ × ℕ) :=
  match genes with
  | [] => .ok (0, 0, 0)
  | g :: rest =>
    match liveGeneLRT chi2cdf g.1 g.2 with
    | .error e => .error e
    | .ok none => liveLRTcounts chi2cdf rest
    | .ok (some row) =>
      match liveLRTcounts chi2cdf rest with
      | .error e => .error e
      | .ok (t, s5, s1) =>
        .ok (t + 1, s5 + (if row.pval < 1/20 then 1 else 0),
             s1 + (if row.pval < 1/100 then 1 else 0))

/-! ### Regenerate-from-disk LRT report (`_regenerate_lrt_results`, lines 1515-1641) -/

/-- Tail of the pattern `lnL\(.*?\):\s+([-\d.]+)` after its literal `lnL(`: lazy
scan (the dot never crosses a newline) to a `):` whose suffix completes the
pattern. -/
def lazyFindParenColon : List Char → Option String
  | [] => none
  | c :: rest =>
    match (if c = ')' then
             match rest with
             | ':' :: r2 => ((dropWsPlus r2).bind (greedyGroup digitDotDash)).map fun g => String.mk g
             | _ => none
           else none) with
    | some r => some r
    | none => if c = '\n' then none else lazyFindParenColon rest

/-- The lnL extraction of the regeneration paths (line 1593):
`re.search(r'lnL\(.*?\):\s+([-\d.]+)', content)`, parsed as a float.  A captured
group that fails to parse raises `ValueError`, caught by the per-gene `except`,
so the gene is skipped — observably the same as no match. -/
def regenLnL (content : String) : Option ℚ :=
  (searchAt (fun cs => (dropLitCS "lnL(".toList cs).bind lazyFindParenColon) content.toList).bind
    pyFloat?

/-- The per-gene body of `_regenerate_lrt_results` (lines 1576-1631): both files
must exist and both lnL values parse; then the row is always written and counted
— there is no degrees-of-freedom or negative-statistic check on this path, and
`df` is the constant attached to the comparison (lines 1545-1554), never zero. -/
def regenGeneLRT (chi2cdf : ℚ → ℕ → ℚ) (nullContent altContent : Option String)
    (df : ℕ) : Option LRTRow :=
  match nullContent, altContent with
  | some nc, some ac =>
    match regenLnL nc, regenLnL ac with
    | some ln, some la =>
      let stat := 2 * (la - ln)
      some ⟨stat, df, 1 - chi2cdf stat df⟩
    | _, _ => none
  | _, _ => none

/-- The aggregate counters of one regenerated comparison (lines 1571-1611). -/
def regenLRTcounts (chi2cdf : ℚ → ℕ → ℚ) (df : ℕ)
    (genes : List (Option String × Option String)) : ℕ × ℕ × ℕ :=
  match genes with
  | [] => (0, 0, 0)
  | g :: rest =>
    match regenGeneLRT chi2cdf g.1 g.2 df with
    | none => regenLRTcounts chi2cdf df rest
    | some row =>
      match regenLRTcounts chi2cdf df rest with
      | (t, s5, s1) =>
        (t + 1, s5 + (if row.pval < 1/20 then 1 else 0),
         s1 + (if row.pval < 1/100 then 1 else 0))

/-! ### Regenerated summary LRT columns (`_regenerate_analysis_summary`, lines 1380-1406) -/

/-- Truthiness test `row[f'{m}_lnL']` guarded by key presence, as in
`if f'M0_lnL' in row and row[f'M0_lnL']`: the key must be present and the stored
float truthy — `None` and `0.0` both fail. -/
def rowTruthyLnL (row : List (String × Option ℚ)) (m : String) : Bool :=
  match lookupA m row with
  | some (some q) => ¬ q = 0
  | _ => false

def rowLnLval (row : List (String × Option ℚ)) (m : String) : ℚ :=
  match lookupA m row with
  | some (some q) => q
  | _ => 0

/-- The five fixed comparisons of the regenerated summary, with column names. -/
def regenComparisons : List (String × String × String) :=
  [("M0", "M1a", "lrt_M0_vs_M1a"),
   ("M1a", "M2a", "lrt_M1a_vs_M2a"),
   ("M7", "M8", "lrt_M7_vs_M8"),
   ("M0", "Branch", "lrt_M0_vs_Branch"),
   ("Branch-site_null", "Branch-site", "lrt_Branch-site_null_vs_Branch-site")]

/-- The LRT columns added to one gene's row by `_regenerate_analysis_summary`
(lines 1380-1406): five sequential truthiness-guarded additions. -/
def regenAddLRT (row : List (String × Option ℚ)) : List (String × ℚ) :=
  regenComparisons.filterMap fun c =>
    if rowTruthyLnL row c.1 ∧ rowTruthyLnL row c.2.1 then
      some (c.2.2, 2 * (rowLnLval row c.2.1 - rowLnLval row c.1))
    else none

end Codeml

/-! ### Specification-side definitions

These follow the words of the specification / claims, for the refinement-style
comparisons; each is paired by a theorem with the source-translated definition. -/

namespace SpecSide

/-- The data rows of the branch table, per the spec's words: the stripped lines
after the table header, up to the line budget, skipping blank lines and lines
containing `branch`, stopping at an end-of-table marker. -/
def dataRows : Nat → List String → List (List Char)
  | 0, _ => []
  | _, [] => []
  | fuel+1, l :: rest =>
    let dl := pyStrip l.toList
    if dl = [] ∨ listContains "branch".toList (asciiLower dl) then dataRows fuel rest
    else if SitesParser.lineHitsMarker SitesParser.endMarkersGlobal dl then []
    else dl :: dataRows fuel rest

/-- The 5th-whitespace-field values of the data rows of the branch table. -/
def tableFieldValues (content : String) : List ℚ :=
  if ¬ strContainsB SitesParser.branchTableMarker content then []
  else
    match SitesParser.linesAfterMarker SitesParser.branchTableMarker (SitesParser.splitLines content) with
    | none => []
    | some rest => (dataRows 199 rest).filterMap SitesParser.fifthField

/-- The claim's description of the branch-table extractor: the median of the
in-bounds 5th-field values, out-of-bounds candidates silently ignored, absent
when no value survives. -/
def branchTableMedian (content : String) : Option ℚ :=
  let vs := (tableFieldValues content).filter SitesParser.inBounds
  if vs = [] then none else some (medianQ vs)

/-- A stand-in chi-square CDF used to instantiate concrete examples: zero at
non-positive statistics (as the true CDF is), one above.  The inclusion and
counting behaviour under scrutiny never depends on the CDF values. -/
def exampleCdf : ℚ → ℕ → ℚ := fun s _ => if s ≤ 0 then 0 else 1

end SpecSide

/-! ### Helper lemmas about `firstDedup`, `sortByKey` and list indices -/

theorem mem_firstDedupAux :
    ∀ (l : List String) (seen : List String) (a : String),
      a ∈ firstDedupAux seen l ↔ a ∈ l ∧ a ∉ seen := by
  intro l
  induction l with
  | nil => intro seen a; simp [firstDedupAux]
  | cons x xs ih =>
    intro seen a
    rw [firstDedupAux]
    by_cases hx : x ∈ seen
    · rw [if_pos hx, ih]
      constructor
      · rintro ⟨h1, h2⟩; exact ⟨List.mem_cons_of_mem _ h1, h2⟩
      · rintro ⟨h1, h2⟩
        rcases List.mem_cons.mp h1 with rfl | h1
        · exact absurd hx h2
        · exact ⟨h1, h2⟩
    · rw [if_neg hx]
      simp only [List.mem_cons, ih, List.mem_cons]
      constructor
      · rintro (rfl | ⟨h1, h2⟩)
        · exact ⟨Or.inl rfl, hx⟩
        · exact ⟨Or.inr h1, fun hs => h2 (Or.inr hs)⟩
      · rintro ⟨rfl | h1, h2⟩
        · exact Or.inl rfl
        · by_cases hax : a = x
          · exact Or.inl hax
          · refine Or.inr ⟨h1, ?_⟩
            rintro (h | h)
            · exact hax h
            · exact h2 h

theorem mem_firstDedup (l : List String) (a : String) : a ∈ firstDedup l ↔ a ∈ l := by
  rw [firstDedup, mem_firstDedupAux]
  simp

theorem nodup_firstDedupAux :
    ∀ (l : List String) (seen : List String), (firstDedupAux seen l).Nodup := by
  intro l
  induction l with
  | nil => intro seen; simp [firstDedupAux]
  | cons x xs ih =>
    intro seen
    rw [firstDedupAux]
    by_cases hx : x ∈ seen
    · rw [if_pos hx]; exact ih seen
    · rw [if_neg hx]
      refine List.nodup_cons.mpr ⟨?_, ih _⟩
      intro hmem
      have := (mem_firstDedupAux _ _ _).mp hmem
      exact this.2 (List.mem_cons_self _ _)

theorem nodup_firstDedup (l : List String) : (firstDedup l).Nodup :=
  nodup_firstDedupAux l []

theorem firstDedupAux_eq_self :
    ∀ (l : List String) (seen : List String), l.Nodup → (∀ y ∈ l, y ∉ seen) →
      firstDedupAux seen l = l := by
  intro l
  induction l with
  | nil => intro seen _ _; rfl
  | cons x xs ih =>
    intro seen hnd hdisj
    rcases List.nodup_cons.mp hnd with ⟨hx, hxs⟩
    rw [firstDedupAux, if_neg (hdisj x (List.mem_cons_self x xs))]
    congr 1
    refine ih (x :: seen) hxs fun y hy hmem => ?_
    rcases List.mem_cons.mp hmem with h | h
    · exact hx (h ▸ hy)
    · exact hdisj y (List.mem_cons_of_mem _ hy) h

theorem firstDedup_eq_self {l : List String} (h : l.Nodup) : firstDedup l = l :=
  firstDedupAux_eq_self l [] h (by simp)

theorem pairwise_indexOf_firstDedupAux :
    ∀ (l : List String) (seen : List String),
      (firstDedupAux seen l).Pairwise fun a b => l.indexOf a < l.indexOf b := by
  intro l
  induction l with
  | nil => intro seen; simp [firstDedupAux]
  | cons x xs ih =>
    intro seen
    rw [firstDedupAux]
    by_cases hx : x ∈ seen
    · rw [if_pos hx]
      refine (ih seen).imp_of_mem ?_
      intro a b ha hb hlt
      have ha' := (mem_firstDedupAux _ _ _).mp ha
      have hb' := (mem_firstDedupAux _ _ _).mp hb
      have hax : a ≠ x := fun h => ha'.2 (h ▸ hx)
      have hbx : b ≠ x := fun h => hb'.2 (h ▸ hx)
      rw [List.indexOf_cons_ne _ (by simpa using Ne.symm hax),
          List.indexOf_cons_ne _ (by simpa using Ne.symm hbx)]
      exact Nat.succ_lt_succ hlt
    · rw [if_neg hx]
      refine List.Pairwise.cons ?_ ?_
      · intro b hb
        have hb' := (mem_firstDedupAux _ _ _).mp hb
        have hbx : b ≠ x := fun h => hb'.2 (h ▸ List.mem_cons_self x seen)
        rw [List.indexOf_cons_self, List.indexOf_cons_ne _ (by simpa using Ne.symm hbx)]
        exact Nat.succ_pos _
      · refine (ih (x :: seen)).imp_of_mem ?_
        intro a b ha hb hlt
        have ha' := (mem_firstDedupAux _ _ _).mp ha
        have hb' := (mem_firstDedupAux _ _ _).mp hb
        have hax : a ≠ x := fun h => ha'.2 (h ▸ List.mem_cons_self x seen)
        have hbx : b ≠ x := fun h => hb'.2 (h ▸ List.mem_cons_self x seen)
        rw [List.indexOf_cons_ne _ (by simpa using Ne.symm hax),
            List.indexOf_cons_ne _ (by simpa using Ne.symm hbx)]
        exact Nat.succ_lt_succ hlt

theorem pairwise_indexOf_firstDedup (l : List String) :
    (firstDedup l).Pairwise fun a b => l.indexOf a < l.indexOf b :=
  pairwise_indexOf_firstDedupAux l []

theorem pairwise_indexOf_of_nodup :
    ∀ {l : List String}, l.Nodup → l.Pairwise fun a b => l.indexOf a < l.indexOf b := by
  intro l
  induction l with
  | nil => simp
  | cons x xs ih =>
    intro h
    rcases List.nodup_cons.mp h with ⟨hx, hxs⟩
    refine List.Pairwise.cons ?_ ?_
    · intro b hb
      have hbx : b ≠ x := by rintro rfl; exact hx hb
      rw [List.indexOf_cons_self, List.indexOf_cons_ne _ (by simpa using Ne.symm hbx)]
      exact Nat.succ_pos _
    · refine (ih hxs).imp_of_mem ?_
      intro a b ha hb hlt
      have hax : a ≠ x := by rintro rfl; exact hx ha
      have hbx : b ≠ x := by rintro rfl; exact hx hb
      rw [List.indexOf_cons_ne _ (by simpa using Ne.symm hax),
          List.indexOf_cons_ne _ (by simpa using Ne.symm hbx)]
      exact Nat.succ_lt_succ hlt

theorem insertKeyed_perm (key : α → Nat) (x : α) :
    ∀ (l : List α), List.Perm (insertKeyed key x l) (x :: l)
  | [] => List.Perm.refl _
  | y :: ys => by
    rw [insertKeyed]
    split
    · exact List.Perm.refl _
    · exact ((insertKeyed_perm key x ys).cons y).trans (List.Perm.swap x y ys)

theorem sortByKey_perm (key : α → Nat) : ∀ (l : List α), List.Perm (sortByKey key l) l
  | [] => List.Perm.refl _
  | x :: xs => by
    rw [sortByKey, List.foldr_cons]
    exact (insertKeyed_perm key x _).trans ((sortByKey_perm key xs).cons x)

theorem sortByKey_eq_self (key : α → Nat) :
    ∀ {l : List α}, (l.Pairwise fun a b => key a ≤ key b) → sortByKey key l = l := by
  intro l
  induction l with
  | nil => intro _; rfl
  | cons x xs ih =>
    intro h
    rcases List.pairwise_cons.mp h with ⟨hx, hxs⟩
    rw [sortByKey, List.foldr_cons]
    have : List.foldr (insertKeyed key) [] xs = xs := ih hxs
    rw [show List.foldr (insertKeyed key) [] xs = sortByKey key xs from rfl, ih hxs]
    cases xs with
    | nil => rfl
    | cons y ys =>
      rw [insertKeyed, if_pos (hx y (List.mem_cons_self y ys))]

/-! ### Shape lemmas for the null-model auto-completion -/

namespace Codeml

theorem lookupNull_val {m nm : String} (h : lookupNull m = some nm) : nm ∈ nullVals := by
  unfold lookupNull at h
  split_ifs at h <;> simp_all [nullVals]

theorem nullVals_lookup_none : ∀ x ∈ nullVals, lookupNull x = none := by decide

theorem addNulls_sub : ∀ (ms acc : List String), acc ⊆ addNulls acc ms := by
  intro ms
  induction ms with
  | nil => intro acc; rw [addNulls]; exact fun x hx => hx
  | cons m ms ih =>
    intro acc
    rw [addNulls]
    cases hm : lookupNull m with
    | none => exact ih acc
    | some nm =>
      dsimp only
      by_cases hin : nm ∈ acc
      · rw [if_pos hin]; exact ih acc
      · rw [if_neg hin]
        exact List.Subset.trans (List.subset_append_left acc [nm]) (ih (acc ++ [nm]))

theorem addNulls_shape :
    ∀ (ms acc : List String), acc.Nodup →
      ∃ t, addNulls acc ms = acc ++ t ∧ (acc ++ t).Nodup ∧
        ∀ x ∈ t, x ∉ acc ∧ x ∈ nullVals := by
  intro ms
  induction ms with
  | nil =>
    intro acc h
    exact ⟨[], by rw [addNulls, List.append_nil], by simpa, by simp⟩
  | cons m ms ih =>
    intro acc hacc
    rw [addNulls]
    cases hm : lookupNull m with
    | none => exact ih acc hacc
    | some nm =>
      dsimp only
      by_cases hin : nm ∈ acc
      · rw [if_pos hin]; exact ih acc hacc
      · rw [if_neg hin]
        have hacc' : (acc ++ [nm]).Nodup := by
          rw [List.nodup_append]
          refine ⟨hacc, List.nodup_singleton nm, ?_⟩
          intro a ha hmem
          rw [List.mem_singleton] at hmem
          subst hmem
          exact hin ha
        obtain ⟨t, ht, hnd, hcond⟩ := ih (acc ++ [nm]) hacc'
        refine ⟨nm :: t, ?_, ?_, ?_⟩
        · rw [ht, List.append_assoc]; rfl
        · rw [show acc ++ nm :: t = (acc ++ [nm]) ++ t by simp]; exact hnd
        · intro x hx
          rcases List.mem_cons.mp hx with rfl | hx
          · exact ⟨hin, lookupNull_val hm⟩
          · obtain ⟨hnot, hval⟩ := hcond x hx
            exact ⟨fun hxa => hnot (List.mem_append_left _ hxa), hval⟩

theorem addNulls_mem_null :
    ∀ (ms acc : List String) (m nm : String), m ∈ ms → lookupNull m = some nm →
      nm ∈ addNulls acc ms := by
  intro ms
  induction ms with
  | nil => intro acc m nm hm; simp at hm
  | cons m' ms ih =>
    intro acc m nm hm hnm
    rcases List.mem_cons.mp hm with rfl | hm
    · rw [addNulls, hnm]
      dsimp only
      by_cases hin : nm ∈ acc
      · rw [if_pos hin]; exact addNulls_sub ms acc hin
      · rw [if_neg hin]
        exact addNulls_sub ms (acc ++ [nm]) (List.mem_append_right acc (List.mem_singleton_self nm))
    · rw [addNulls]
      cases hm' : lookupNull m' with
      | none => exact ih acc m nm hm hnm
      | some nm' =>
        dsimp only
        by_cases hin : nm' ∈ acc
        · rw [if_pos hin]; exact ih acc m nm hm hnm
        · rw [if_neg hin]; exact ih (acc ++ [nm']) m nm hm hnm

theorem subset_ite_append (c : Prop) [Decidable c] (base l : List String) :
    base ⊆ (if c then base ++ l else base) := by
  split
  · exact List.subset_append_left _ _
  · exact fun x hx => hx

theorem addNeutrals_sub (sel acc : List String) (b : Bool) : acc ⊆ addNeutrals sel acc b := by
  unfold addNeutrals
  split
  · exact List.Subset.trans (subset_ite_append _ acc ["M1a"]) (subset_ite_append _ _ _)
  · exact fun x hx => hx

theorem addNeutrals_shape (sel acc : List String) (b : Bool) (hacc : acc.Nodup) :
    ∃ t, addNeutrals sel acc b = acc ++ t ∧ (acc ++ t).Nodup ∧
      ∀ x ∈ t, x ∉ acc ∧ x ∈ nullVals := by
  unfold addNeutrals
  cases b with
  | false => exact ⟨[], by simp, by simpa, by simp⟩
  | true =>
    simp only [if_true]
    by_cases h1 : "M2a" ∈ sel ∧ ¬ "M1a" ∈ acc
    · rw [if_pos h1]
      have hnd1 : (acc ++ ["M1a"]).Nodup := by
        rw [List.nodup_append]
        refine ⟨hacc, List.nodup_singleton _, ?_⟩
        intro a ha hmem
        rw [List.mem_singleton] at hmem
        subst hmem
        exact h1.2 ha
      by_cases h2 : "Branch-site" ∈ sel ∧ ¬ "Branch-site_null" ∈ acc ++ ["M1a"]
      · rw [if_pos h2]
        refine ⟨["M1a", "Branch-site_null"], by simp, ?_, ?_⟩
        · rw [show acc ++ ["M1a", "Branch-site_null"] = (acc ++ ["M1a"]) ++ ["Branch-site_null"] by simp]
          rw [List.nodup_append]
          refine ⟨hnd1, List.nodup_singleton _, ?_⟩
          intro a ha hmem
          rw [List.mem_singleton] at hmem
          subst hmem
          exact h2.2 ha
        · intro x hx
          rcases List.mem_cons.mp hx with rfl | hx
          · exact ⟨h1.2, by simp [nullVals]⟩
          · rcases List.mem_cons.mp hx with rfl | hx
            · exact ⟨fun ha => h2.2 (List.mem_append_left _ ha), by simp [nullVals]⟩
            · simp at hx
      · rw [if_neg h2]
        refine ⟨["M1a"], rfl, hnd1, ?_⟩
        intro x hx
        rcases List.mem_cons.mp hx with rfl | hx
        · exact ⟨h1.2, by simp [nullVals]⟩
        · simp at hx
    · rw [if_neg h1]
      by_cases h2 : "Branch-site" ∈ sel ∧ ¬ "Branch-site_null" ∈ acc
      · rw [if_pos h2]
        refine ⟨["Branch-site_null"], rfl, ?_, ?_⟩
        · rw [List.nodup_append]
          refine ⟨hacc, List.nodup_singleton _, ?_⟩
          intro a ha hmem
          rw [List.mem_singleton] at hmem
          subst hmem
          exact h2.2 ha
        · intro x hx
          rcases List.mem_cons.mp hx with rfl | hx
          · exact ⟨h2.2, by simp [nullVals]⟩
          · simp at hx
      · rw [if_neg h2]
        exact ⟨[], by simp, by simpa, by simp⟩

theorem completedList_shape (sel : List String) (b : Bool) :
    ∃ t, completedList sel b = firstDedup sel ++ t ∧ (firstDedup sel ++ t).Nodup ∧
      ∀ x ∈ t, x ∉ firstDedup sel ∧ x ∈ nullVals := by
  obtain ⟨t1, ht1, hnd1, hc1⟩ := addNulls_shape sel (firstDedup sel) (nodup_firstDedup sel)
  obtain ⟨t2, ht2, hnd2, hc2⟩ := addNeutrals_shape sel (firstDedup sel ++ t1) b hnd1
  refine ⟨t1 ++ t2, ?_, ?_, ?_⟩
  · rw [completedList, ht1, ht2, List.append_assoc]
  · rw [← List.append_assoc]; exact hnd2
  · intro x hx
    rcases List.mem_append.mp hx with hx | hx
    · exact hc1 x hx
    · obtain ⟨hnot, hval⟩ := hc2 x hx
      exact ⟨fun ha => hnot (List.mem_append_left _ ha), hval⟩

theorem mem_completedList_of_null {sel : List String} {b : Bool} {m nm : String}
    (hm : m ∈ sel) (hnm : lookupNull m = some nm) : nm ∈ completedList sel b := by
  rw [completedList]
  exact addNeutrals_sub _ _ _ (addNulls_mem_null sel (firstDedup sel) m nm hm hnm)

theorem mem_completedList_elts {sel : List String} {b : Bool} {x : String}
    (hx : x ∈ completedList sel b) : x ∈ sel ∨ x ∈ nullVals := by
  obtain ⟨t, ht, _, hcond⟩ := completedList_shape sel b
  rw [ht] at hx
  rcases List.mem_append.mp hx with hx | hx
  · exact Or.inl ((mem_firstDedup sel x).mp hx)
  · exact Or.inr (hcond x hx).2

theorem addNulls_id :
    ∀ (ms acc : List String), (∀ m ∈ ms, ∀ nm, lookupNull m = some nm → nm ∈ acc) →
      addNulls acc ms = acc := by
  intro ms
  induction ms with
  | nil => intro acc _; rw [addNulls]
  | cons m ms ih =>
    intro acc h
    rw [addNulls]
    cases hm : lookupNull m with
    | none => exact ih acc fun m' hm' => h m' (List.mem_cons_of_mem _ hm')
    | some nm =>
      dsimp only
      rw [if_pos (h m (List.mem_cons_self m ms) nm hm)]
      exact ih acc fun m' hm' => h m' (List.mem_cons_of_mem _ hm')

theorem addNeutrals_id (sel acc : List String) (b : Bool)
    (h1 : "M2a" ∈ sel → "M1a" ∈ acc)
    (h2 : "Branch-site" ∈ sel → "Branch-site_null" ∈ acc) :
    addNeutrals sel acc b = acc := by
  unfold addNeutrals
  cases b with
  | false => rfl
  | true =>
    simp only [if_true]
    have c1 : ¬ ("M2a" ∈ sel ∧ ¬ "M1a" ∈ acc) := fun hc => hc.2 (h1 hc.1)
    rw [if_neg c1]
    have c2 : ¬ ("Branch-site" ∈ sel ∧ ¬ "Branch-site_null" ∈ acc) := fun hc => hc.2 (h2 hc.1)
    rw [if_neg c2]

theorem auto_mem_null {sel : List String} {b : Bool} {m nm : String}
    (hm : m ∈ sel) (hnm : lookupNull m = some nm) :
    nm ∈ autoCompleteNullModels sel b :=
  (sortByKey_perm _ _).mem_iff.mpr (mem_completedList_of_null hm hnm)

theorem auto_idem (sel : List String) (b : Bool) :
    autoCompleteNullModels (autoCompleteNullModels sel b) b
      = autoCompleteNullModels sel b := by
  obtain ⟨t, htc, hnd, _⟩ := completedList_shape sel b
  have hperm : List.Perm (autoCompleteNullModels sel b) (completedList sel b) :=
    sortByKey_perm _ _
  have hEnodup : (autoCompleteNullModels sel b).Nodup :=
    hperm.nodup_iff.mpr (htc ▸ hnd)
  set E := autoCompleteNullModels sel b with hE
  have hmemE : ∀ x, x ∈ E ↔ x ∈ completedList sel b := fun x => hperm.mem_iff
  have hnulls : addNulls E E = E := by
    refine addNulls_id E E ?_
    intro m hm nm hnm
    rcases mem_completedList_elts ((hmemE m).mp hm) with hsel | hval
    · exact (hmemE nm).mpr (mem_completedList_of_null hsel hnm)
    · rw [nullVals_lookup_none m hval] at hnm; cases hnm
  have hneut : addNeutrals E E b = E := by
    refine addNeutrals_id E E b ?_ ?_
    · intro hm
      rcases mem_completedList_elts ((hmemE _).mp hm) with hsel | hval
      · exact (hmemE _).mpr (mem_completedList_of_null hsel (by decide))
      · simp [nullVals] at hval
    · intro hm
      rcases mem_completedList_elts ((hmemE _).mp hm) with hsel | hval
      · exact (hmemE _).mpr (mem_completedList_of_null hsel (by decide))
      · simp [nullVals] at hval
  have hpair : E.Pairwise fun a b' => autoKey E a ≤ autoKey E b' := by
    refine (pairwise_indexOf_of_nodup hEnodup).imp_of_mem ?_
    intro a b' ha hb hlt
    simp only [autoKey, if_pos ha, if_pos hb]
    exact hlt.le
  show sortByKey (autoKey E) (completedList E b) = E
  rw [completedList, firstDedup_eq_self hEnodup, hnulls, hneut]
  exact sortByKey_eq_self _ hpair

theorem auto_order (sel : List String) (b : Bool)
    (H : ∀ x ∈ sel, sel.indexOf x < 999) :
    ∃ t, autoCompleteNullModels sel b = firstDedup sel ++ t ∧ ∀ x ∈ t, x ∉ sel := by
  obtain ⟨t, htc, _, hcond⟩ := completedList_shape sel b
  have htnotsel : ∀ x ∈ t, x ∉ sel := fun x hx hxs =>
    (hcond x hx).1 ((mem_firstDedup sel x).mpr hxs)
  refine ⟨t, ?_, htnotsel⟩
  rw [autoCompleteNullModels, htc]
  apply sortByKey_eq_self
  rw [List.pairwise_append]
  refine ⟨?_, ?_, ?_⟩
  · refine (pairwise_indexOf_firstDedup sel).imp_of_mem ?_
    intro a b' ha hb hlt
    have ha' := (mem_firstDedup sel a).mp ha
    have hb' := (mem_firstDedup sel b').mp hb
    simp only [autoKey, if_pos ha', if_pos hb']
    exact hlt.le
  · refine List.pairwise_of_forall_mem_list ?_
    intro a ha b' hb
    simp only [autoKey, if_neg (htnotsel a ha), if_neg (htnotsel b' hb)]
    exact le_refl _
  · intro a ha b' hb
    have ha' := (mem_firstDedup sel a).mp ha
    simp only [autoKey, if_pos ha', if_neg (htnotsel b' hb)]
    exact (H a ha').le

end Codeml

/-! ## Claim theorems -/

set_option maxRecDepth 8192

/-- C1: the claim states that for every model name classified as neutral — in
particular `M1a` and `Branch-site_null` — `generate_ctl_content` always emits
`fix_omega = 1` and `omega = 1.0`, overriding any caller-supplied values.  The
code enforces this only for the keys of `NEUTRAL_MODELS`, which still carries
the historical name `BranchSite_A_null` instead of the renamed
`Branch-site_null`, contradicting the function's own docstring ("For neutral
models (M1a, Branch-site_null), omega is forced to 1.0 with fix_omega=1"): with
`model_name = "Branch-site_null"` and an override `fix_omega = 0`, the control
file carries `fix_omega = 0` and `omega = 0.5`, while the same call for `M1a`
is duly forced to `fix_omega = 1`, `omega = 1.0`. -/
theorem c1_neutral_invariant_bug :
    "Branch-site_null" ∉ Codeml.NEUTRAL_MODELS ∧
    (¬ StrContains "fix_omega = 1"
        (Codeml.generateCtlContent "gene.fas" "tree.nwk" "out.txt"
          ⟨2, 2, 7, 0, 1⟩ (1/2) 1 "Branch-site_null")) ∧
    (¬ StrContains "omega = 1.0"
        (Codeml.generateCtlContent "gene.fas" "tree.nwk" "out.txt"
          ⟨2, 2, 7, 0, 1⟩ (1/2) 1 "Branch-site_null")) ∧
    StrContains "fix_omega = 0"
      (Codeml.generateCtlContent "gene.fas" "tree.nwk" "out.txt"
        ⟨2, 2, 7, 0, 1⟩ (1/2) 1 "Branch-site_null") ∧
    StrContains "omega = 0.5"
      (Codeml.generateCtlContent "gene.fas" "tree.nwk" "out.txt"
        ⟨2, 2, 7, 0, 1⟩ (1/2) 1 "Branch-site_null") ∧
    StrContains "fix_omega = 1"
      (Codeml.generateCtlContent "gene.fas" "tree.nwk" "out.txt"
        ⟨0, 1, 2, 0, 1/2⟩ (1/2) 1 "M1a") ∧
    StrContains "omega = 1.0"
      (Codeml.generateCtlContent "gene.fas" "tree.nwk" "out.txt"
        ⟨0, 1, 2, 0, 1/2⟩ (1/2) 1 "M1a") := by
  decide

/-- C4: for every output text containing the labels `site class`, `background w`
and `foreground w` together, `extract_omega_robust` returns the absent value —
even when the same text also contains a parseable `dN & dS for each branch`
table or a directly labelled ratio, since the signature check precedes both
extraction strategies. -/
theorem c4_robust_site_class_none (content : String)
    (h1 : StrContains "site class" content)
    (h2 : StrContains "background w" content)
    (h3 : StrContains "foreground w" content) :
    SitesParser.extractOmegaRobust content = none := by
  have b1 : strContainsB "site class" content = true := (strContainsB_iff _ _).mpr h1
  have b2 : strContainsB "background w" content = true := (strContainsB_iff _ _).mpr h2
  have b3 : strContainsB "foreground w" content = true := (strContainsB_iff _ _).mpr h3
  rw [SitesParser.extractOmegaRobust, if_pos ⟨b1, b2, b3⟩]

/-- Witness for C4 at a text that also contains a parseable branch table and a
directly labelled `w = 0.61`. -/
theorem c4_robust_site_class_none_witness :
    SitesParser.extractOmegaRobust
      ("site class 0 1\nbackground w 0.1 1.0\nforeground w 0.1 9.9\n" ++
       "dN & dS for each branch\n 6..7 0.1 100.0 30.0 0.5 0.0 0.0 0 0\n w = 0.61\n")
      = none :=
  c4_robust_site_class_none _ (by decide) (by decide) (by decide)

/-- C8 counterexample: the claim adds "in particular a line containing `codon`
but not `stop` is not detected"; the line `codon press enter` contains `codon`
and not `stop` yet is detected, because the press/enter disjunct fires. -/
theorem c8_codon_line_cex :
    Codeml.detectPrompt "codon press enter" = true ∧
    SubstrSpec "codon".toList (asciiLower "codon press enter".toList) ∧
    ¬ SubstrSpec "stop".toList (asciiLower "codon press enter".toList) := by
  decide

/-- C8 amended: a line is detected as a blocking prompt iff, case-insensitively,
it contains both `stop` and `codon`, or both `press` and `enter`; in particular
a line containing `codon` but neither `stop` nor both `press` and `enter` is not
detected. -/
theorem c8_prompt_detection_amended :
    (∀ line : String,
      Codeml.detectPrompt line = true ↔
        ((SubstrSpec "stop".toList (asciiLower line.toList) ∧
          SubstrSpec "codon".toList (asciiLower line.toList)) ∨
         (SubstrSpec "press".toList (asciiLower line.toList) ∧
          SubstrSpec "enter".toList (asciiLower line.toList)))) ∧
    (∀ line : String,
      SubstrSpec "codon".toList (asciiLower line.toList) →
      ¬ SubstrSpec "stop".toList (asciiLower line.toList) →
      ¬ (SubstrSpec "press".toList (asciiLower line.toList) ∧
         SubstrSpec "enter".toList (asciiLower line.toList)) →
      Codeml.detectPrompt line = false) := by
  have hiff : ∀ line : String,
      Codeml.detectPrompt line = true ↔
        ((SubstrSpec "stop".toList (asciiLower line.toList) ∧
          SubstrSpec "codon".toList (asciiLower line.toList)) ∨
         (SubstrSpec "press".toList (asciiLower line.toList) ∧
          SubstrSpec "enter".toList (asciiLower line.toList))) := by
    intro line
    simp only [Codeml.detectPrompt, decide_eq_true_eq]
    rw [listContains_iff, listContains_iff, listContains_iff, listContains_iff]
  refine ⟨hiff, ?_⟩
  intro line hc hs hpe
  cases hdet : Codeml.detectPrompt line with
  | false => rfl
  | true =>
    rcases (hiff line).mp hdet with ⟨h1, _⟩ | h2
    · exact absurd h1 hs
    · exact absurd h2 hpe

/-- Witness for C8 at the line `codon` (contains `codon`, no `stop`, no
press/enter pair): not detected. -/
theorem c8_prompt_detection_amended_witness :
    Codeml.detectPrompt "codon" = false :=
  c8_prompt_detection_amended.2 "codon" (by decide) (by decide) (by decide)

/-- The interleaved scan of `extract_omega_global` collects exactly the in-bounds
members of the 5th-field values of the data rows. -/
theorem scanOmegas_eq (fuel : Nat) :
    ∀ ls : List String,
      SitesParser.scanOmegas fuel ls
        = ((SpecSide.dataRows fuel ls).filterMap SitesParser.fifthField).filter
            SitesParser.inBounds := by
  induction fuel with
  | zero => intro ls; cases ls <;> rfl
  | succ n ih =>
    intro ls
    cases ls with
    | nil => rfl
    | cons l rest =>
      rw [SitesParser.scanOmegas, SpecSide.dataRows]
      by_cases h1 : pyStrip l.toList = [] ∨
          listContains "branch".toList (asciiLower (pyStrip l.toList)) = true
      · rw [if_pos h1, if_pos h1, ih]
      · rw [if_neg h1, if_neg h1]
        by_cases h2 : SitesParser.lineHitsMarker SitesParser.endMarkersGlobal
            (pyStrip l.toList) = true
        · rw [if_pos h2, if_pos h2]; rfl
        · rw [if_neg h2, if_neg h2]
          cases hf : SitesParser.fifthField (pyStrip l.toList) with
          | none =>
            simp only [List.filterMap_cons, hf]
            exact ih rest
          | some w =>
            simp only [List.filterMap_cons, hf]
            by_cases h3 : SitesParser.inBounds w = true
            · rw [if_pos h3, List.filter_cons_of_pos h3, ih]
            · rw [if_neg h3, List.filter_cons_of_neg h3, ih]

/-- C9: `extract_omega_global` returns the median of the 5th-whitespace-field
values of the branch-table data rows that lie within the −10..100 sanity bound,
silently ignoring out-of-bounds candidates; on a table with values 0.40, 0.42,
0.44 it returns 0.42, and when a 999 row is added the 999 is excluded and the
result is still 0.42. -/
theorem c9_branch_table_median :
    (∀ content : String,
      SitesParser.extractOmegaGlobal content = SpecSide.branchTableMedian content) ∧
    SitesParser.extractOmegaGlobal
      ("dN & dS for each branch\n\n branch t N S dN/dS dN dS N*dN S*dS\n" ++
       " 6..7 0.1 100.0 30.0 0.40 0.01 0.02 1.0 0.6\n" ++
       " 6..8 0.1 100.0 30.0 0.42 0.01 0.02 1.0 0.6\n" ++
       " 7..8 0.1 100.0 30.0 0.44 0.01 0.02 1.0 0.6\n") = some 0.42 ∧
    SpecSide.tableFieldValues
      ("dN & dS for each branch\n\n branch t N S dN/dS dN dS N*dN S*dS\n" ++
       " 6..7 0.1 100.0 30.0 0.40 0.01 0.02 1.0 0.6\n" ++
       " 6..8 0.1 100.0 30.0 0.42 0.01 0.02 1.0 0.6\n" ++
       " 7..8 0.1 100.0 30.0 0.44 0.01 0.02 1.0 0.6\n" ++
       " 7..9 0.1 100.0 30.0 999.0000 0.01 0.02 1.0 0.6\n") = [0.40, 0.42, 0.44, 999] ∧
    SitesParser.extractOmegaGlobal
      ("dN & dS for each branch\n\n branch t N S dN/dS dN dS N*dN S*dS\n" ++
       " 6..7 0.1 100.0 30.0 0.40 0.01 0.02 1.0 0.6\n" ++
       " 6..8 0.1 100.0 30.0 0.42 0.01 0.02 1.0 0.6\n" ++
       " 7..8 0.1 100.0 30.0 0.44 0.01 0.02 1.0 0.6\n" ++
       " 7..9 0.1 100.0 30.0 999.0000 0.01 0.02 1.0 0.6\n") = some 0.42 := by
  refine ⟨?_, by decide, by decide, by decide⟩
  intro content
  rw [SitesParser.extractOmegaGlobal, SpecSide.branchTableMedian, SpecSide.tableFieldValues]
  by_cases hc : strContainsB SitesParser.branchTableMarker content = true
  · rw [if_neg (not_not_intro hc), if_neg (not_not_intro hc)]
    cases hl : SitesParser.linesAfterMarker SitesParser.branchTableMarker
        (SitesParser.splitLines content) with
    | none => rfl
    | some rest =>
      dsimp only
      rw [scanOmegas_eq]
  · rw [if_pos hc, if_pos hc]
    rfl

/-- C5 counterexample: the claim quantifies over every text whose
`w (dN/dS) for branches:` line lists two or more numeric values, but the
background/foreground pair match takes precedence: this text's branches line
lists 0.35, 0.06, 999.00, yet `extract_omega_by_tags` returns the pair mapping,
not `{background: 0.35, #1: 0.06, #2: 999.0}`. -/
theorem c5_by_tags_precedence_cex :
    searchAt SitesParser.tryMulti
      ("background w 0.1\nforeground w 2.0\nw (dN/dS) for branches: 0.35 0.06 999.00\n").toList
      = some "0.35 0.06 999.00" ∧
    SitesParser.extractOmegaByTags
      "background w 0.1\nforeground w 2.0\nw (dN/dS) for branches: 0.35 0.06 999.00\n"
      = [("background", 0.1), ("foreground", 2)] ∧
    SitesParser.extractOmegaByTags
      "background w 0.1\nforeground w 2.0\nw (dN/dS) for branches: 0.35 0.06 999.00\n"
      ≠ [("background", 0.35), ("#1", 0.06), ("#2", 999)] := by
  decide

/-- C5 amended: for every text on which the background/foreground pair pattern
does not produce a tag (so the multi-value branch is reached), whose
`w (dN/dS) for branches:` line lists two or more values each within −10..100 or
exactly 999, `extract_omega_by_tags` maps the first value to `background` and
the i-th subsequent value to `#i` in order, preserving a literal 999 under its
tag; in particular `w (dN/dS) for branches: 0.35 0.06 999.00` yields
`{background: 0.35, #1: 0.06, #2: 999.0}`. -/
theorem c5_by_tags_amended :
    (∀ (content : String) (v w : ℚ) (rest : List ℚ),
      SitesParser.bgfgPairs content = [] →
      (searchAt SitesParser.tryMulti content.toList).map SitesParser.multiValues
          = some (v :: w :: rest) →
      SitesParser.extractOmegaByTags content
        = ("background", v) :: SitesParser.tagNumbered 1 (w :: rest)) ∧
    SitesParser.extractOmegaByTags "w (dN/dS) for branches: 0.35 0.06 999.00"
      = [("background", 0.35), ("#1", 0.06), ("#2", 999)] := by
  constructor
  · intro content v w rest hbf hm
    obtain ⟨grp, hgrp, hvals⟩ := Option.map_eq_some'.mp hm
    rw [SitesParser.extractOmegaByTags]
    rw [hbf, if_neg (by simp), hgrp]
    dsimp only
    rw [hvals]
  · decide

/-- Witness for C5 at the single-line text of the claim. -/
theorem c5_by_tags_amended_witness :
    SitesParser.extractOmegaByTags "w (dN/dS) for branches: 0.35 0.06 999.00"
      = [("background", 0.35), ("#1", 0.06), ("#2", 999)] :=
  c5_by_tags_amended.1 "w (dN/dS) for branches: 0.35 0.06 999.00"
    0.35 0.06 [999] (by decide) (by decide)

/-- C2 counterexample: in the regenerate-from-disk LRT report a negative
statistic is not excluded.  With null lnL −100.0 and alternative lnL −105.0 the
statistic is −10, yet `_regenerate_lrt_results` produces a counted, classified
row for the gene. -/
theorem c2_regen_negative_included_cex :
    Codeml.regenGeneLRT SpecSide.exampleCdf
        (some "lnL(ntime: 5 np: 10): -100.0")
        (some "lnL(ntime: 5 np: 10): -105.0") 1
      = some ⟨-10, 1, 1⟩ ∧
    ((-10 : ℚ) < 0) ∧
    Codeml.regenLRTcounts SpecSide.exampleCdf 1
        [(some "lnL(ntime: 5 np: 10): -100.0", some "lnL(ntime: 5 np: 10): -105.0")]
      = (1, 0, 0) := by
  refine ⟨by decide, by decide, by decide⟩

/-- C2 amended: in the live LRT analysis a comparison with zero degrees of
freedom or a negative statistic is excluded from the rows and from the
valid/significant counters; the regenerate-from-disk report attaches a fixed
positive df to each comparison and includes every gene whose two files yield
parseable log-likelihoods, regardless of the statistic's sign. -/
theorem c2_lrt_exclusion_amended :
    (∀ (cdf : ℚ → ℕ → ℚ) (nr ar : Codeml.RunResult) (ln la : ℚ) (npn npa : ℤ),
      nr.lnL = some ln → ar.lnL = some la → nr.np = some npn → ar.np = some npa →
      ((npa - npn).natAbs = 0 ∨ 2 * (la - ln) < 0) →
      Codeml.liveGeneLRT cdf (some nr) (some ar) = .ok none) ∧
    (∀ (cdf : ℚ → ℕ → ℚ) (g : Option Codeml.RunResult × Option Codeml.RunResult)
        (rest : List (Option Codeml.RunResult × Option Codeml.RunResult)),
      Codeml.liveGeneLRT cdf g.1 g.2 = .ok none →
      Codeml.liveLRTcounts cdf (g :: rest) = Codeml.liveLRTcounts cdf rest) ∧
    (∀ (cdf : ℚ → ℕ → ℚ) (nc ac : String) (df : ℕ) (ln la : ℚ),
      Codeml.regenLnL nc = some ln → Codeml.regenLnL ac = some la →
      Codeml.regenGeneLRT cdf (some nc) (some ac) df
        = some ⟨2 * (la - ln), df, 1 - cdf (2 * (la - ln)) df⟩) := by
  refine ⟨?_, ?_, ?_⟩
  · intro cdf nr ar ln la npn npa h1 h2 h3 h4 h5
    simp only [Codeml.liveGeneLRT, h1, h2, h3, h4]
    rw [if_pos h5]
  · intro cdf g rest h
    rw [Codeml.liveLRTcounts, h]
  · intro cdf nc ac df ln la h1 h2
    simp only [Codeml.regenGeneLRT, h1, h2]

/-- Witness for C2: a live comparison with lnL −100/−105 and np 10/12
(statistic −10) contributes neither a row nor a count, and the regenerated
report's row for the same files carries the −10 statistic. -/
theorem c2_lrt_exclusion_amended_witness :
    Codeml.liveGeneLRT SpecSide.exampleCdf
        (some ⟨none, some (-100), some 10, none, 0, "partial", 0⟩)
        (some ⟨none, some (-105), some 12, none, 0, "partial", 0⟩) = .ok none ∧
    Codeml.liveLRTcounts SpecSide.exampleCdf
        [(some ⟨none, some (-100), some 10, none, 0, "partial", 0⟩,
          some ⟨none, some (-105), some 12, none, 0, "partial", 0⟩)]
      = Codeml.liveLRTcounts SpecSide.exampleCdf [] ∧
    Codeml.regenGeneLRT SpecSide.exampleCdf
        (some "lnL(ntime: 5 np: 10): -100.0")
        (some "lnL(ntime: 5 np: 10): -105.0") 1
      = some ⟨2 * ((-105) - (-100)), 1,
          1 - SpecSide.exampleCdf (2 * ((-105) - (-100))) 1⟩ :=
  ⟨c2_lrt_exclusion_amended.1 SpecSide.exampleCdf _ _ (-100) (-105) 10 12
      rfl rfl rfl rfl (by decide),
   c2_lrt_exclusion_amended.2.1 SpecSide.exampleCdf _ _
      (c2_lrt_exclusion_amended.1 SpecSide.exampleCdf _ _ (-100) (-105) 10 12
        rfl rfl rfl rfl (by decide)),
   c2_lrt_exclusion_amended.2.2 SpecSide.exampleCdf _ _ 1 (-100) (-105)
      (by decide) (by decide)⟩

/-- C6 counterexample: a run whose process exceeds the timeout leaves no
recorded outcome at all — `_run_single_analysis` returns the absent value, so
no result with a `TimedOut` status exists; the log receives the stream tails. -/
theorem c6_timeout_no_status_cex :
    (Codeml.runSingleAnalysis (.timedOut ["last stdout line"] ["last stderr line"])).1
      = none ∧
    (Codeml.runSingleAnalysis (.timedOut ["last stdout line"] ["last stderr line"])).2
      = ["TIMEOUT", "last stdout line", "last stderr line"] :=
  ⟨rfl, rfl⟩

/-- C6 amended: a timed-out run yields no recorded run result (the outcome is
absent, with the last 200 lines of both streams appended to the batch log); the
only statuses a recorded result can carry are `success` and `partial`; and the
batch does not crash — every other (gene, model) run whose process terminates
is still recorded. -/
theorem c6_timeout_amended :
    (∀ so se : List String,
      Codeml.runSingleAnalysis (.timedOut so se)
        = (none, "TIMEOUT" :: (takeLast 200 so ++ takeLast 200 se))) ∧
    (∀ (e : Codeml.ProcExec) (r : Codeml.RunResult),
      (Codeml.runSingleAnalysis e).1 = some r →
      r.status = "success" ∨ r.status = "partial") ∧
    (∀ (genes models : List String) (exec : String → String → Codeml.ProcExec)
        (g m : String) (r : Codeml.RunResult),
      g ∈ genes → m ∈ models → (Codeml.runSingleAnalysis (exec g m)).1 = some r →
      ∃ rs, (g, rs) ∈ Codeml.runBatchAnalysis genes models exec ∧ (m, r) ∈ rs) := by
  refine ⟨fun so se => rfl, ?_, ?_⟩
  · intro e r h
    cases e with
    | timedOut so se => simp [Codeml.runSingleAnalysis] at h
    | completed rc so se out t =>
      simp only [Codeml.runSingleAnalysis, Option.some.injEq] at h
      by_cases hp : rc = 0 ∧ out.isSome = true
      · left; rw [← h]; exact if_pos hp
      · right; rw [← h]; exact if_neg hp
  · intro genes models exec g m r hg hm hr
    refine ⟨models.filterMap fun m' =>
        ((Codeml.runSingleAnalysis (exec g m')).1).map fun r' => (m', r'), ?_, ?_⟩
    · exact List.mem_map.mpr ⟨g, hg, rfl⟩
    · exact List.mem_filterMap.mpr ⟨m, hm, by rw [hr]; rfl⟩

/-- Witness for C6: a two-model batch where the first run times out still
records the second run's result. -/
theorem c6_timeout_amended_witness :
    ∃ rs, ("g1", rs) ∈ Codeml.runBatchAnalysis ["g1"] ["m1", "m2"]
        (fun _ m => if m = "m1" then .timedOut ["tail"] [] else .completed 0 [] [] none 5) ∧
      ("m2", (⟨none, none, none, none, 5, "partial", 0⟩ : Codeml.RunResult)) ∈ rs :=
  c6_timeout_amended.2.2 ["g1"] ["m1", "m2"]
    (fun _ m => if m = "m1" then .timedOut ["tail"] [] else .completed 0 [] [] none 5)
    "g1" "m2" ⟨none, none, none, none, 5, "partial", 0⟩
    (by decide) (by decide) (by decide)

theorem mem_insertByName {α : Type} {x p : String × α} {l : List (String × α)} :
    p ∈ Codeml.insertByName x l ↔ p = x ∨ p ∈ l := by
  induction l with
  | nil => simp [Codeml.insertByName]
  | cons y ys ih =>
    rw [Codeml.insertByName]
    split
    · simp only [List.mem_cons]
    · simp only [List.mem_cons, ih]
      tauto

theorem mem_sortByName {α : Type} {p : String × α} {l : List (String × α)} :
    p ∈ Codeml.sortByName l ↔ p ∈ l := by
  induction l with
  | nil => simp [Codeml.sortByName]
  | cons y ys ih =>
    rw [Codeml.sortByName, List.foldr_cons]
    rw [show List.foldr Codeml.insertByName [] ys = Codeml.sortByName ys from rfl] at *
    rw [mem_insertByName, ih, List.mem_cons]

/-- C7 counterexample: the claim states that every metric column of a missing
(gene, model) cell — lnL, np, omega, time, stops — is the literal `NA`, but the
stops column of a missing cell is the literal `0`. -/
theorem c7_stops_cell_cex :
    Codeml.summaryRows ["M0"] [("g1", [])] = [["g1", "NA", "NA", "NA", "NA", "0"]] ∧
    Codeml.cellBlock none ≠ ["NA", "NA", "NA", "NA", "NA"] := by
  refine ⟨by decide, by decide⟩

/-- C7 amended: the batch summary always contains a row for every gene of the
result set and the five per-model columns for every selected model; a (gene,
model) cell with no run result is written as four `NA` sentinels and a literal
`0` stop count, rather than the row or columns being omitted. -/
theorem c7_summary_na_amended :
    Codeml.cellBlock none = ["NA", "NA", "NA", "NA", "0"] ∧
    (∀ (models : List String) (results : List (String × List (String × Codeml.RunResult)))
        (g : String) (rs : List (String × Codeml.RunResult)),
      (g, rs) ∈ results →
      Codeml.summaryRow models g rs ∈ Codeml.summaryRows models results) ∧
    (∀ (models : List String) (g : String) (rs : List (String × Codeml.RunResult)),
      (Codeml.summaryRow models g rs).head? = some g) ∧
    (∀ models : List String, ∀ m ∈ models,
      (m ++ "_lnL") ∈ Codeml.summaryHeader models ∧
      (m ++ "_np") ∈ Codeml.summaryHeader models ∧
      (m ++ "_omega") ∈ Codeml.summaryHeader models ∧
      (m ++ "_time") ∈ Codeml.summaryHeader models ∧
      (m ++ "_stops") ∈ Codeml.summaryHeader models) := by
  refine ⟨rfl, ?_, fun _ _ _ => rfl, ?_⟩
  · intro models results g rs hmem
    exact List.mem_map.mpr ⟨(g, rs), mem_sortByName.mpr hmem, rfl⟩
  · intro models m hm
    have base : ∀ col ∈ [m ++ "_lnL", m ++ "_np", m ++ "_omega", m ++ "_time", m ++ "_stops"],
        col ∈ Codeml.summaryHeader models := by
      intro col hcol
      rw [Codeml.summaryHeader]
      refine List.mem_cons_of_mem _ (List.mem_append_left _ ?_)
      exact List.mem_flatMap.mpr ⟨m, hm, hcol⟩
    refine ⟨base _ ?_, base _ ?_, base _ ?_, base _ ?_, base _ ?_⟩ <;> simp

/-- Witness for C7 at a one-model, one-gene result set with the model's run
absent. -/
theorem c7_summary_na_amended_witness :
    Codeml.summaryRow ["M0"] "g1" [] ∈ Codeml.summaryRows ["M0"] [("g1", [])] ∧
    ("M0_lnL") ∈ Codeml.summaryHeader ["M0"] ∧
    ("M0_stops") ∈ Codeml.summaryHeader ["M0"] :=
  ⟨c7_summary_na_amended.2.1 ["M0"] [("g1", [])] "g1" [] (by simp),
   (c7_summary_na_amended.2.2.2 ["M0"] "M0" (by simp)).1,
   (c7_summary_na_amended.2.2.2 ["M0"] "M0" (by simp)).2.2.2.2⟩

/-- C10: a run result whose log-likelihood is present but exactly 0.0 renders
its lnL cell as `NA` (the summary writer tests truthiness, not `is not None`),
and the regenerated summary skips every LRT column whose null or alternative
side is that model for that gene, because the row guard is
`row[f'{m}_lnL']`-truthiness. -/
theorem c10_zero_lnl_truthiness :
    (∀ r : Codeml.RunResult, r.lnL = some 0 →
      (Codeml.cellBlockPresent r).head? = some "NA") ∧
    (∀ (row : List (String × Option ℚ)) (m : String),
      Codeml.lookupA m row = some (some 0) →
      ∀ c ∈ Codeml.regenComparisons, (c.1 = m ∨ c.2.1 = m) →
        c.2.2 ∉ (Codeml.regenAddLRT row).map Prod.fst) := by
  constructor
  · intro r h
    rw [Codeml.cellBlockPresent]
    simp only [h]
    rfl
  · intro row m hrow c hc hcm hmem
    have hfalse : Codeml.rowTruthyLnL row m = false := by
      rw [Codeml.rowTruthyLnL, hrow]
      simp
    obtain ⟨p, hp, hfst⟩ := List.mem_map.mp hmem
    obtain ⟨c', hc', hfc⟩ := List.mem_filterMap.mp hp
    by_cases hg : Codeml.rowTruthyLnL row c'.1 = true ∧ Codeml.rowTruthyLnL row c'.2.1 = true
    · rw [if_pos hg] at hfc
      have hpc : p.1 = c'.2.2 := by
        cases hfc
        rfl
      have hcols : ∀ a ∈ Codeml.regenComparisons, ∀ b ∈ Codeml.regenComparisons,
          a.2.2 = b.2.2 → a = b := by decide
      have hcc : c = c' := hcols c hc c' hc' (by rw [← hfst, hpc])
      subst hcc
      rcases hcm with h | h
      · rw [h] at hg
        rw [hg.1] at hfalse
        cases hfalse
      · rw [h] at hg
        rw [hg.2] at hfalse
        cases hfalse
    · rw [if_neg hg] at hfc
      cases hfc

/-- Witness for C10 at a run result with lnL exactly 0.0 and a regenerated row
with `M0` stored as 0.0. -/
theorem c10_zero_lnl_truthiness_witness :
    (Codeml.cellBlockPresent ⟨none, some 0, some 5, some 1, 3, "success", 0⟩).head?
      = some "NA" ∧
    "lrt_M0_vs_M1a" ∉
      (Codeml.regenAddLRT [("M0", some (0 : ℚ)), ("M1a", some (-5 : ℚ))]).map Prod.fst :=
  ⟨c10_zero_lnl_truthiness.1 ⟨none, some 0, some 5, some 1, 3, "success", 0⟩ rfl,
   c10_zero_lnl_truthiness.2 [("M0", some (0 : ℚ)), ("M1a", some (-5 : ℚ))] "M0"
     (by decide) ("M0", "M1a", "lrt_M0_vs_M1a") (by decide) (Or.inl rfl)⟩

/-- C3 counterexample: the claim's ordering clause fails because newly added
nulls are keyed with the sentinel 999: in a selection whose model `M2a` first
occurs at index 1001, the added null `M1a` sorts before the originally selected
`M2a`, so the output is not the original selection (deduplicated, in order)
followed by the new nulls. -/
theorem c3_order_sentinel_cex :
    Codeml.autoCompleteNullModels (List.replicate 1001 "M0" ++ ["M2a"]) true
      = ["M0", "M1a", "M2a"] ∧
    ¬ ∃ t, Codeml.autoCompleteNullModels (List.replicate 1001 "M0" ++ ["M2a"]) true
        = firstDedup (List.replicate 1001 "M0" ++ ["M2a"]) ++ t ∧
          ∀ x ∈ t, x ∉ (List.replicate 1001 "M0" ++ ["M2a"]) := by
  have h1 : Codeml.autoCompleteNullModels (List.replicate 1001 "M0" ++ ["M2a"]) true
      = ["M0", "M1a", "M2a"] := by decide
  have h2 : firstDedup (List.replicate 1001 "M0" ++ ["M2a"]) = ["M0", "M2a"] := by decide
  refine ⟨h1, ?_⟩
  rintro ⟨t, ht, _⟩
  rw [h1, h2] at ht
  injection ht with ha hb
  injection hb with hc hd
  exact absurd hc (by decide)

/-- C3 amended: `auto_complete_null_models` is idempotent and its output
contains the null counterpart of every alternative model present in the
selection; the output lists the originally selected models first (deduplicated,
in original order) followed by the newly added null models, provided every
selected model's first occurrence lies below the sort-key sentinel 999. -/
theorem c3_auto_complete_amended :
    ∀ (b : Bool) (S : List String),
      Codeml.autoCompleteNullModels (Codeml.autoCompleteNullModels S b) b
        = Codeml.autoCompleteNullModels S b ∧
      (∀ m ∈ S, ∀ nm, Codeml.lookupNull m = some nm →
        nm ∈ Codeml.autoCompleteNullModels S b) ∧
      ((∀ x ∈ S, S.indexOf x < 999) →
        ∃ t, Codeml.autoCompleteNullModels S b = firstDedup S ++ t ∧ ∀ x ∈ t, x ∉ S) :=
  fun b S =>
    ⟨Codeml.auto_idem S b,
     fun _ hm _ hnm => Codeml.auto_mem_null hm hnm,
     Codeml.auto_order S b⟩

/-- Witness for C3 at the selection `[M2a]`. -/
theorem c3_auto_complete_amended_witness :
    Codeml.autoCompleteNullModels (Codeml.autoCompleteNullModels ["M2a"] true) true
      = Codeml.autoCompleteNullModels ["M2a"] true ∧
    "M1a" ∈ Codeml.autoCompleteNullModels ["M2a"] true ∧
    (∃ t, Codeml.autoCompleteNullModels ["M2a"] true = firstDedup ["M2a"] ++ t ∧
      ∀ x ∈ t, x ∉ (["M2a"] : List String)) :=
  ⟨(c3_auto_complete_amended true ["M2a"]).1,
   (c3_auto_complete_amended true ["M2a"]).2.1 "M2a" (by decide) "M1a" (by decide),
   (c3_auto_complete_amended true ["M2a"]).2.2 (by decide)⟩

end EasyPAML
